import Mathlib

set_option maxRecDepth 10000

/-!
# Verification of the ARNGLL-Rust frame codec, address codec and DSP filters

This file is a shallow embedding, in Lean 4, of the parts of the
arngll-rust repository that the verified properties below speak about:

* `hamaddr/src/ham_addr.rs` — the `HamAddr` ARNCE address type
  (`try_from_slice`, `len`, `chunk`, `get_type`, `Display`);
* `hamaddr/src/ham_char.rs` — the 40-symbol ARNCE character set and
  its chunk packing;
* `arngll/src/frame_info.rs` — `FrameInfo`, `SecInfo`, `Mic`,
  serialisation (`bytes_with_payload`, `fcf_msb`, `fcf_lsb`) and
  parsing (`try_from_bytes`);
* `arngll/src/mac.rs` — the network-admission step of `Mac::listen`;
* `quick-dsp/src/filter/fsk_demod.rs` — the FSK slicer;
* `quick-dsp/src/filter/hdlc.rs` — the HDLC bit decoder and the frame
  collector;
* `quick-dsp/src/filter/iter.rs` — the CRC-16/IBM-SDLC (X.25)
  appending iterator.

Machine integers (`u8`, `u16`, `u32`) are modelled as `Nat` together
with explicit bounds where overflow could matter; byte buffers are
`List Nat`; Rust `Result`/`Option` become `Option` or the
`ParseOutcome` type below, which additionally distinguishes the panic
paths of the Rust code (slice-index panics, `unwrap` of `None`) from
ordinary `Err` returns.
-/

/-! ## Byte-order helpers (Rust `u16::to_be_bytes`, `u32::to_be_bytes`) -/

/-- Big-endian serialisation of a `u16` (`n.to_be_bytes()`). -/
def toBeBytes2 (n : Nat) : List Nat := [n / 256 % 256, n % 256]

/-- Big-endian serialisation of a `u32` (`n.to_be_bytes()`). -/
def toBeBytes4 (n : Nat) : List Nat :=
  [n / 16777216 % 256, n / 65536 % 256, n / 256 % 256, n % 256]

/-- Big-endian reconstruction of a `u32` (`u32::from_be_bytes([a,b,c,d])`). -/
def fromBeBytes4 (a b c d : Nat) : Nat :=
  a * 16777216 + b * 65536 + c * 256 + d

/-! ## `HamAddr` (hamaddr/src/ham_addr.rs)

`HamAddr` is a `#[repr(transparent)]` wrapper around `[u8; 8]`; we
model the byte array as a `List Nat`.  Well-formedness (`HamAddr.wf`)
records what the Rust type system guarantees: exactly 8 octets, each
an 8-bit value. -/

structure HamAddr where
  octets : List Nat
deriving DecidableEq, Repr

/-- `HamAddr::EMPTY`. -/
def HamAddr.EMPTY : HamAddr := ⟨[0, 0, 0, 0, 0, 0, 0, 0]⟩

/-- `HamAddr::BROADCAST`. -/
def HamAddr.BROADCAST : HamAddr := ⟨[0xFF, 0xFF, 0, 0, 0, 0, 0, 0]⟩

/-- Invariants of the Rust representation `[u8; 8]`. -/
def HamAddr.wf (a : HamAddr) : Prop :=
  a.octets.length = 8 ∧ ∀ b ∈ a.octets, b < 256

instance (a : HamAddr) : Decidable a.wf := by
  unfold HamAddr.wf; infer_instance

/-- `HamAddr::chunk`: `u16::from_be_bytes([self.0[i*2], self.0[i*2+1]])`. -/
def HamAddr.chunk (a : HamAddr) (i : Nat) : Nat :=
  256 * a.octets.getD (i * 2) 0 + a.octets.getD (i * 2 + 1) 0

/-- `HamAddr::len`: minimal encoding length, 8/6/4/2 by the last
non-zero chunk. -/
def HamAddr.len (a : HamAddr) : Nat :=
  if a.chunk 3 ≠ 0 then 8
  else if a.chunk 2 ≠ 0 then 6
  else if a.chunk 1 ≠ 0 then 4
  else 2

/-- `HamAddr::as_trimmed_slice`: `&self.0[..self.len()]`. -/
def HamAddr.as_trimmed_slice (a : HamAddr) : List Nat :=
  a.octets.take a.len

/-- Modelled from the spec: `HamAddr::trimmed_bytes` is called by the
frame serialiser but its definition is not among the provided sources;
per the spec, addresses are serialised "trimmed to their natural
length (2/4/6/8)", i.e. it yields exactly the bytes of
`as_trimmed_slice` (which is in the sources). -/
def HamAddr.trimmed_bytes (a : HamAddr) : List Nat :=
  a.as_trimmed_slice

/-- `HamAddr::try_from_slice`: accepts even lengths up to 8, copies
into an all-zero 8-byte array. -/
def HamAddr.try_from_slice (bytes : List Nat) : Option HamAddr :=
  if bytes.length % 2 = 1 ∨ bytes.length > 8 then none
  else some ⟨bytes ++ List.replicate (8 - bytes.length) 0⟩

/-- `HamAddr::is_empty`. -/
def HamAddr.is_empty (a : HamAddr) : Bool :=
  a.chunk 0 == 0 && a.chunk 1 == 0 && a.chunk 2 == 0 && a.chunk 3 == 0

/-- `HamAddr::is_broadcast`. -/
def HamAddr.is_broadcast (a : HamAddr) : Bool :=
  a.chunk 0 == 0xFFFF && a.chunk 1 == 0 && a.chunk 2 == 0 && a.chunk 3 == 0

/-- `HamAddrType`. -/
inductive HamAddrType
  | Empty
  | Callsign
  | Ipv4Multicast
  | Ipv6Multicast
  | Short
  | Broadcast
  | Reserved
deriving DecidableEq, Repr

/-- Validity of one (non-first) chunk inside `HamAddr::get_type`'s
callsign branch: zero chunks are skipped, others must be in the
callsign range. -/
def chunkCallsignOk (c : Nat) : Bool :=
  c == 0 || (0x0640 ≤ c && c < 0xFA00)

/-- `HamAddr::get_type`. -/
def HamAddr.get_type (a : HamAddr) : HamAddrType :=
  if a.is_empty then .Empty
  else if a.chunk 0 < 0x0640 then
    (if a.len = 2 then .Short else .Reserved)
  else if a.chunk 0 < 0xFA00 then
    (if chunkCallsignOk (a.chunk 1) ∧ chunkCallsignOk (a.chunk 2) ∧
        chunkCallsignOk (a.chunk 3) then .Callsign else .Reserved)
  else if a.is_broadcast then .Broadcast
  else if a.octets.getD 0 0 = 0xFA then .Ipv6Multicast
  else if a.octets.getD 0 0 = 0xFB then .Ipv4Multicast
  else .Reserved

/-! ### Basic facts about `HamAddr` -/

theorem HamAddr.len_cases (a : HamAddr) :
    a.len = 2 ∨ a.len = 4 ∨ a.len = 6 ∨ a.len = 8 := by
  unfold HamAddr.len
  split_ifs <;> simp

theorem HamAddr.two_le_len (a : HamAddr) : 2 ≤ a.len := by
  rcases a.len_cases with h | h | h | h <;> omega

theorem HamAddr.len_le_eight (a : HamAddr) : a.len ≤ 8 := by
  rcases a.len_cases with h | h | h | h <;> omega

theorem HamAddr.len_even (a : HamAddr) : a.len % 2 = 0 := by
  rcases a.len_cases with h | h | h | h <;> omega

/-- A list of length 8 is literally an 8-element list. -/
theorem list_length_eight {α : Type} (l : List α) (h : l.length = 8) :
    ∃ b0 b1 b2 b3 b4 b5 b6 b7, l = [b0, b1, b2, b3, b4, b5, b6, b7] := by
  match l, h with
  | [b0, b1, b2, b3, b4, b5, b6, b7], _ =>
    exact ⟨b0, b1, b2, b3, b4, b5, b6, b7, rfl⟩

/-- Trimming and zero-padding an address back to 8 octets is the
identity: the bytes past `len` are zero. -/
theorem HamAddr.take_len_pad (a : HamAddr) (hw : a.wf) :
    a.octets.take a.len ++ List.replicate (8 - a.len) 0 = a.octets := by
  obtain ⟨hlen, -⟩ := hw
  obtain ⟨b0, b1, b2, b3, b4, b5, b6, b7, he⟩ := list_length_eight a.octets hlen
  have hc : ∀ i, a.chunk i = 256 * a.octets.getD (i * 2) 0 +
      a.octets.getD (i * 2 + 1) 0 := fun i => rfl
  unfold HamAddr.len
  rw [he]
  simp only [HamAddr.chunk, he, List.getD]
  split_ifs with h3 h2 h1 <;> simp_all

/-- `try_from_slice` inverts trimming. -/
theorem HamAddr.try_from_slice_trimmed (a : HamAddr) (hw : a.wf) :
    HamAddr.try_from_slice a.as_trimmed_slice = some a := by
  have hlen8 : a.octets.length = 8 := hw.1
  have hlen : a.as_trimmed_slice.length = a.len := by
    simp [HamAddr.as_trimmed_slice, hlen8]
    have := a.len_le_eight; omega
  unfold HamAddr.try_from_slice
  rw [hlen]
  rw [if_neg]
  · congr 1
    cases a with
    | mk oc =>
      congr 1
      exact HamAddr.take_len_pad ⟨oc⟩ hw
  · have h1 := a.len_even
    have h2 := a.len_le_eight
    omega

/-! ### Claim C10 -/

/-- **C10.** `HamAddr::try_from_slice(bytes)` succeeds iff
`bytes.len()` is even and at most 8 (the empty slice yielding
`HamAddr::EMPTY`), and on success the address is the input
zero-padded on the right to 8 octets. -/
theorem try_from_slice_spec (bytes : List Nat) :
    ((HamAddr.try_from_slice bytes).isSome ↔
      bytes.length % 2 = 0 ∧ bytes.length ≤ 8) ∧
    (∀ a, HamAddr.try_from_slice bytes = some a →
      a.octets = bytes ++ List.replicate (8 - bytes.length) 0) ∧
    HamAddr.try_from_slice [] = some HamAddr.EMPTY := by
  refine ⟨?_, ?_, by decide⟩
  · unfold HamAddr.try_from_slice
    split_ifs with h
    · simp only [Option.isSome_none, Bool.false_eq_true, false_iff]
      omega
    · simp only [Option.isSome_some, true_iff]
      omega
  · intro a ha
    unfold HamAddr.try_from_slice at ha
    split_ifs at ha
    cases ha
    rfl

/-- Witness for C10: a concrete 2-byte slice is accepted and padded. -/
theorem try_from_slice_spec_witness :
    (HamAddr.try_from_slice [1, 2]).isSome = true :=
  (try_from_slice_spec [1, 2]).1.mpr (by decide)

/-! ## Frame codec data model (arngll/src/frame_info.rs) -/

/-- `FrameType`. -/
inductive FrameType
  | Beacon
  | Data
  | Ack
  | MacCommand
deriving DecidableEq, Repr

/-- `FrameType::try_from_u8`. -/
def FrameType.try_from_u8 (x : Nat) : Option FrameType :=
  match x with
  | 0 => some .Beacon
  | 1 => some .Data
  | 2 => some .Ack
  | 3 => some .MacCommand
  | _ => none

/-- `FrameType::to_u8`. -/
def FrameType.to_u8 : FrameType → Nat
  | .Beacon => 0
  | .Data => 1
  | .Ack => 2
  | .MacCommand => 3

/-- `MicLen`. -/
inductive MicLen
  | Mic32
  | Mic64
  | Mic96
  | Mic128
deriving DecidableEq, Repr

/-- `MicLen::try_from_u8`. -/
def MicLen.try_from_u8 (x : Nat) : Option MicLen :=
  match x with
  | 0 => some .Mic32
  | 1 => some .Mic64
  | 2 => some .Mic96
  | 3 => some .Mic128
  | _ => none

/-- `MicLen::to_u8`. -/
def MicLen.to_u8 : MicLen → Nat
  | .Mic32 => 0
  | .Mic64 => 1
  | .Mic96 => 2
  | .Mic128 => 3

/-- `MicLen::len`: MIC length in octets. -/
def MicLen.bytelen : MicLen → Nat
  | .Mic32 => 4
  | .Mic64 => 8
  | .Mic96 => 12
  | .Mic128 => 16

/-- `Mic`: a `MicLen` plus a `[u8; 16]` code buffer. -/
structure Mic where
  len : MicLen
  code : List Nat
deriving DecidableEq, Repr

/-- `Mic::EMPTY`. -/
def Mic.EMPTY : Mic := ⟨.Mic32, List.replicate 16 0⟩

/-- `Mic::len(&self)` (length in octets). -/
def Mic.size (m : Mic) : Nat := m.len.bytelen

/-- `Mic::try_from_slice`. -/
def Mic.try_from_slice (s : List Nat) : Option Mic :=
  if s.length < 4 then none
  else
    match MicLen.try_from_u8 (s.length / 4 - 1) with
    | some ml => some ⟨ml, s ++ List.replicate (16 - s.length) 0⟩
    | none => none

/-- `Mic::bytes`: the first `len` octets of the code buffer. -/
def Mic.bytes (m : Mic) : List Nat := m.code.take m.size

/-- `KeyIdentMode`. -/
inductive KeyIdentMode
  | Addresses
  | KeyIndex
  | Reserved2
  | Reserved3
deriving DecidableEq, Repr

/-- `KeyIdentMode::try_from_u8`. -/
def KeyIdentMode.try_from_u8 (x : Nat) : Option KeyIdentMode :=
  match x with
  | 0 => some .Addresses
  | 1 => some .KeyIndex
  | 2 => some .Reserved2
  | 3 => some .Reserved3
  | _ => none

/-- `KeyIdentMode::to_u8`. -/
def KeyIdentMode.to_u8 : KeyIdentMode → Nat
  | .Addresses => 0
  | .KeyIndex => 1
  | .Reserved2 => 2
  | .Reserved3 => 3

/-- `SecInfo`.  `fcntr` is a `u32`, `kid` an optional `u8`. -/
structure SecInfo where
  enc : Bool
  kim : KeyIdentMode
  fcntr : Nat
  kid : Option Nat
  mic : Mic
deriving DecidableEq, Repr

/-- `SecInfo::scf`: the Security Control Field byte. -/
def SecInfo.scf (s : SecInfo) : Nat :=
  ((if s.enc then 1 else 0) <<< 7) + (s.mic.len.to_u8 <<< 5) +
    (s.kim.to_u8 <<< 3)

/-- `SecInfo::bytes`: SCF, then `fcntr` big-endian, then the optional
key id. -/
def SecInfo.bytes (s : SecInfo) : List Nat :=
  s.scf :: (toBeBytes4 s.fcntr ++ s.kid.toList)

/-- `VERSION_EXPERIMENTAL` (arngll/src/lib.rs). -/
def VERSION_EXPERIMENTAL : Nat := 0

/-- `VERSION_1` (arngll/src/lib.rs). -/
def VERSION_1 : Nat := 1

/-- `FrameInfo`.  `network_id` wraps a `u16` (`NetworkId`), `ack_crc`
is a `u16`. -/
structure FrameInfo where
  frame_type : FrameType
  ack_requested : Bool
  is_from_relay : Bool
  network_id : Option Nat
  dst_addr : HamAddr
  src_addr : HamAddr
  rly_addr : Option HamAddr
  sec_info : Option SecInfo
  ack_crc : Nat
deriving DecidableEq, Repr

/-- `FrameInfo::EMPTY`. -/
def FrameInfo.EMPTY : FrameInfo :=
  ⟨.Data, false, false, none, HamAddr.EMPTY, HamAddr.EMPTY, none, none, 0⟩

/-- `FrameInfo::fcf_msb`. -/
def FrameInfo.fcf_msb (F : FrameInfo) : Nat :=
  (VERSION_EXPERIMENTAL <<< 6) + (F.frame_type.to_u8 <<< 4) +
    ((F.dst_addr.len / 2 - 1) <<< 2) + (F.src_addr.len / 2 - 1)

/-- `FrameInfo::fcf_lsb`: present only for non-Ack frames. -/
def FrameInfo.fcf_lsb (F : FrameInfo) : Option Nat :=
  if F.frame_type ≠ FrameType.Ack then
    some (((if F.sec_info.isSome then 1 else 0) <<< 7) +
      ((if F.network_id.isSome then 1 else 0) <<< 6) +
      ((if F.ack_requested then 1 else 0) <<< 5) +
      ((if F.rly_addr.isSome then 1 else 0) <<< 4) +
      ((if F.is_from_relay then 1 else 0) <<< 3) +
      (((F.rly_addr.map HamAddr.len).getD 2) / 2 - 1))
  else none

/-- `FrameInfo::bytes_with_payload`.  The Rust code runs
`assert!(payload.is_empty())` for Ack frames; that panic path is
modelled as `none`. -/
def FrameInfo.bytes_with_payload (F : FrameInfo) (payload : List Nat) :
    Option (List Nat) :=
  let parts : Option (Option HamAddr × Option Nat × Option HamAddr ×
      Option SecInfo × Option Nat) :=
    if F.frame_type ≠ FrameType.Ack then
      some (some F.dst_addr, F.network_id, F.rly_addr, F.sec_info, none)
    else if payload ≠ [] then none
    else some (none, none, none, none, some F.ack_crc)
  match parts with
  | none => none
  | some (dst, nid, rly, sec, crc) =>
    some ([F.fcf_msb] ++
      F.fcf_lsb.toList ++
      ((nid.map toBeBytes2).getD []) ++
      ((dst.map HamAddr.trimmed_bytes).getD []) ++
      F.src_addr.trimmed_bytes ++
      ((rly.map HamAddr.trimmed_bytes).getD []) ++
      ((sec.map SecInfo.bytes).getD []) ++
      ((crc.map toBeBytes2).getD []) ++
      payload ++
      ((sec.map (fun s => s.mic.bytes)).getD []))

/-! ## Frame parsing (`FrameInfo::try_from_bytes`)

The parser returns `Result<(FrameInfo, &[u8]), Error>` in Rust but
also has reachable panics (slice-indexing past the end, `unwrap` of a
`None` iterator item, and the `usize` underflow / out-of-range
`split_at` when the declared MIC does not fit).  `ParseOutcome`
separates the three behaviours. -/

inductive ParseOutcome (α : Type)
  | ok (val : α)
  | error
  | panicked
deriving DecidableEq, Repr

/-- Sequencing of parser stages (failures propagate). -/
def ParseOutcome.bind {α β : Type} :
    ParseOutcome α → (α → ParseOutcome β) → ParseOutcome β
  | .ok a, f => f a
  | .error, _ => .error
  | .panicked, _ => .panicked

/-- The flag set decoded from the FCF LSB (or defaulted, for Ack). -/
structure FcfFlags where
  has_security_header : Bool
  has_netid : Bool
  ack_requested : Bool
  has_rly_addr : Bool
  is_from_relay : Bool
  rly_len : Nat
  has_dst_addr : Bool
deriving DecidableEq, Repr

/-- FCF LSB handling in `try_from_bytes`: read and split the LSB for
non-Ack frames (`Err` when the input is exhausted), defaults for Ack. -/
def parseFlags (frame_type : FrameType) (l : List Nat) :
    ParseOutcome (FcfFlags × List Nat) :=
  if frame_type ≠ FrameType.Ack then
    match l with
    | [] => .error
    | lsb :: rest =>
      .ok (⟨lsb &&& 0b10000000 != 0,
            lsb &&& 0b01000000 != 0,
            lsb &&& 0b00100000 != 0,
            lsb &&& 0b00010000 != 0,
            lsb &&& 0b00001000 != 0,
            ((lsb &&& 0b11) + 1) * 2,
            true⟩, rest)
  else
    .ok (⟨false, false, false, false, false, 0, false⟩, l)

/-- `NetworkId::from_iter` guarded by `has_netid`; the two
`iter.next().unwrap()` calls panic when the bytes are missing. -/
def parseNetid (has : Bool) (l : List Nat) :
    ParseOutcome (Option Nat × List Nat) :=
  if has then
    match l with
    | msb :: lsb :: rest => .ok (some ((msb <<< 8) ||| lsb), rest)
    | _ => .panicked
  else .ok (none, l)

/-- Address field read: `&iter.as_slice()[..n]` panics when fewer than
`n` bytes remain; otherwise `HamAddr::try_from_slice` and advance. -/
def readAddr (n : Nat) (l : List Nat) : ParseOutcome (HamAddr × List Nat) :=
  if n ≤ l.length then
    match HamAddr.try_from_slice (l.take n) with
    | some a => .ok (a, l.drop n)
    | none => .error
  else .panicked

/-- Destination address: read only when `has_dst_addr` (non-Ack). -/
def parseDst (has : Bool) (n : Nat) (l : List Nat) :
    ParseOutcome (HamAddr × List Nat) :=
  if has then readAddr n l else .ok (HamAddr.EMPTY, l)

/-- Relay address: read only when `has_rly_addr`. -/
def parseRly (has : Bool) (n : Nat) (l : List Nat) :
    ParseOutcome (Option HamAddr × List Nat) :=
  if has then (readAddr n l).bind fun ar => .ok (some ar.1, ar.2)
  else .ok (none, l)

/-- Ack CRC: two `iter.next().unwrap()` for Ack frames. -/
def parseAckCrc (isAck : Bool) (l : List Nat) :
    ParseOutcome (Nat × List Nat) :=
  if isAck then
    match l with
    | msb :: lsb :: rest => .ok (((msb <<< 8) + lsb), rest)
    | _ => .panicked
  else .ok (0, l)

/-- `SecInfo::from_iter`: SCF byte, 4-byte frame counter, optional key
id; every missing byte is an `unwrap` panic. -/
def SecInfo.from_iter (l : List Nat) : ParseOutcome (SecInfo × List Nat) :=
  match l with
  | [] => .panicked
  | scf :: rest =>
    match MicLen.try_from_u8 ((scf &&& 0b01100000) >>> 5),
        KeyIdentMode.try_from_u8 ((scf &&& 0b00011000) >>> 3) with
    | some miclen, some kim =>
      match rest with
      | a :: b :: c :: d :: rest2 =>
        let fcntr := fromBeBytes4 a b c d
        if kim = KeyIdentMode.KeyIndex then
          match rest2 with
          | k :: rest3 =>
            .ok (⟨scf &&& 0b10000000 != 0, kim, fcntr, some k,
                  ⟨miclen, Mic.EMPTY.code⟩⟩, rest3)
          | [] => .panicked
        else
          .ok (⟨scf &&& 0b10000000 != 0, kim, fcntr, none,
                ⟨miclen, Mic.EMPTY.code⟩⟩, rest2)
      | _ => .panicked
    | _, _ => .panicked

/-- Security header plus payload/MIC split.  When the declared MIC is
longer than the remaining bytes, `payload_and_mic.len() - mic_len`
underflows and `split_at` panics. -/
def parseSecPayload (has : Bool) (l : List Nat) :
    ParseOutcome (Option SecInfo × List Nat) :=
  if has then
    (SecInfo.from_iter l).bind fun sr =>
      let si := sr.1
      let rest := sr.2
      let mic_len := si.mic.size
      if rest.length < mic_len then .panicked
      else
        match Mic.try_from_slice (rest.drop (rest.length - mic_len)) with
        | some m => .ok (some { si with mic := m },
            rest.take (rest.length - mic_len))
        | none => .panicked
  else .ok (none, l)

/-- `FrameInfo::try_from_bytes`. -/
def FrameInfo.try_from_bytes (frame : List Nat) :
    ParseOutcome (FrameInfo × List Nat) :=
  if frame.length < 5 then .error
  else
    match frame with
    | [] => .error
    | fcb_msb :: r0 =>
      let ver := fcb_msb >>> 6
      if ver ≠ VERSION_EXPERIMENTAL ∧ ver ≠ VERSION_1 then .error
      else
        let dst_len := (((fcb_msb &&& 0b1100) >>> 2) + 1) * 2
        match FrameType.try_from_u8 ((fcb_msb &&& 0b00110000) >>> 4) with
        | none => .panicked
        | some frame_type =>
          (parseFlags frame_type r0).bind fun flr =>
          let fl := flr.1
          (parseNetid fl.has_netid flr.2).bind fun nidr =>
          (parseDst fl.has_dst_addr dst_len nidr.2).bind fun dstr =>
          let src_len := ((fcb_msb &&& 0b11) + 1) * 2
          (readAddr src_len dstr.2).bind fun srcr =>
          (parseRly fl.has_rly_addr fl.rly_len srcr.2).bind fun rlyr =>
          (parseAckCrc (frame_type == FrameType.Ack) rlyr.2).bind fun crcr =>
          (parseSecPayload fl.has_security_header crcr.2).bind fun secp =>
          .ok (⟨frame_type, fl.ack_requested, fl.is_from_relay, nidr.1,
                dstr.1, srcr.1, rlyr.1, secp.1, crcr.1⟩, secp.2)

/-! ## Bit-field arithmetic lemmas -/

@[simp] theorem ParseOutcome.ok_bind {α β : Type} (a : α)
    (f : α → ParseOutcome β) : (ParseOutcome.ok a).bind f = f a := rfl

/-- A value shifted into the high byte or-ed with a low byte is the
usual base-256 combination. -/
theorem shiftLeft_or_byte (a b : Nat) (hb : b < 256) :
    (a <<< 8) ||| b = 256 * a + b := by
  have h256 : (256 : Nat) = 2 ^ 8 := by norm_num
  have hb2 : b < 2 ^ 8 := by omega
  rw [Nat.shiftLeft_eq, Nat.mul_comm a, h256, ← Nat.mul_add_lt_is_or hb2 a]

/-- Field extraction from the FCF MSB layout
`[ver(2) | frame_type(2) | dst_len_code(2) | src_len_code(2)]`. -/
theorem fcf_msb_fields : ∀ t, t < 4 → ∀ d, d < 4 → ∀ s, s < 4 →
    ((VERSION_EXPERIMENTAL <<< 6) + (t <<< 4) + (d <<< 2) + s) >>> 6 =
      VERSION_EXPERIMENTAL ∧
    (((VERSION_EXPERIMENTAL <<< 6) + (t <<< 4) + (d <<< 2) + s) &&&
      0b1100) >>> 2 = d ∧
    (((VERSION_EXPERIMENTAL <<< 6) + (t <<< 4) + (d <<< 2) + s) &&&
      0b00110000) >>> 4 = t ∧
    ((VERSION_EXPERIMENTAL <<< 6) + (t <<< 4) + (d <<< 2) + s) &&&
      0b11 = s := by
  intro t ht d hd s hs
  interval_cases t <;> interval_cases d <;> interval_cases s <;> decide

/-- Field extraction from the FCF LSB layout
`[has_sec | has_netid | ack_req | has_rly | from_rly | 0 | rly_len_code(2)]`. -/
theorem fcf_lsb_fields : ∀ (b1 b2 b3 b4 b5 : Bool), ∀ rc, rc < 4 →
    ((((if b1 then 1 else 0) <<< 7) + ((if b2 then 1 else 0) <<< 6) +
      ((if b3 then 1 else 0) <<< 5) + ((if b4 then 1 else 0) <<< 4) +
      ((if b5 then 1 else 0) <<< 3) + rc) &&& 0b10000000 != 0) = b1 ∧
    ((((if b1 then 1 else 0) <<< 7) + ((if b2 then 1 else 0) <<< 6) +
      ((if b3 then 1 else 0) <<< 5) + ((if b4 then 1 else 0) <<< 4) +
      ((if b5 then 1 else 0) <<< 3) + rc) &&& 0b01000000 != 0) = b2 ∧
    ((((if b1 then 1 else 0) <<< 7) + ((if b2 then 1 else 0) <<< 6) +
      ((if b3 then 1 else 0) <<< 5) + ((if b4 then 1 else 0) <<< 4) +
      ((if b5 then 1 else 0) <<< 3) + rc) &&& 0b00100000 != 0) = b3 ∧
    ((((if b1 then 1 else 0) <<< 7) + ((if b2 then 1 else 0) <<< 6) +
      ((if b3 then 1 else 0) <<< 5) + ((if b4 then 1 else 0) <<< 4) +
      ((if b5 then 1 else 0) <<< 3) + rc) &&& 0b00010000 != 0) = b4 ∧
    ((((if b1 then 1 else 0) <<< 7) + ((if b2 then 1 else 0) <<< 6) +
      ((if b3 then 1 else 0) <<< 5) + ((if b4 then 1 else 0) <<< 4) +
      ((if b5 then 1 else 0) <<< 3) + rc) &&& 0b00001000 != 0) = b5 ∧
    (((if b1 then 1 else 0) <<< 7) + ((if b2 then 1 else 0) <<< 6) +
      ((if b3 then 1 else 0) <<< 5) + ((if b4 then 1 else 0) <<< 4) +
      ((if b5 then 1 else 0) <<< 3) + rc) &&& 0b11 = rc := by
  intro b1 b2 b3 b4 b5 rc hrc
  cases b1 <;> cases b2 <;> cases b3 <;> cases b4 <;> cases b5 <;>
    interval_cases rc <;> decide

/-- Field extraction from the SCF layout
`[enc(1) | mic_len_code(2) | kim(2) | 0 0 0]`. -/
theorem scf_fields : ∀ (e : Bool), ∀ ml, ml < 4 → ∀ km, km < 4 →
    ((((if e then 1 else 0) <<< 7) + (ml <<< 5) + (km <<< 3)) &&&
      0b10000000 != 0) = e ∧
    ((((if e then 1 else 0) <<< 7) + (ml <<< 5) + (km <<< 3)) &&&
      0b01100000) >>> 5 = ml ∧
    ((((if e then 1 else 0) <<< 7) + (ml <<< 5) + (km <<< 3)) &&&
      0b00011000) >>> 3 = km := by
  intro e ml hml km hkm
  cases e <;> interval_cases ml <;> interval_cases km <;> decide

theorem FrameType.ft_to_u8_lt (t : FrameType) : t.to_u8 < 4 := by
  cases t <;> decide

theorem FrameType.ft_try_from_to (t : FrameType) :
    FrameType.try_from_u8 t.to_u8 = some t := by
  cases t <;> rfl

theorem MicLen.ml_to_u8_lt (m : MicLen) : m.to_u8 < 4 := by
  cases m <;> decide

theorem MicLen.ml_try_from_to (m : MicLen) :
    MicLen.try_from_u8 m.to_u8 = some m := by
  cases m <;> rfl

theorem KeyIdentMode.kim_to_u8_lt (k : KeyIdentMode) : k.to_u8 < 4 := by
  cases k <;> decide

theorem KeyIdentMode.kim_try_from_to (k : KeyIdentMode) :
    KeyIdentMode.try_from_u8 k.to_u8 = some k := by
  cases k <;> rfl

/-! ## Parse-stage inversion lemmas -/

theorem parseNetid_inv (o : Option Nat) (ho : ∀ n ∈ o, n < 65536)
    (rest : List Nat) :
    parseNetid o.isSome ((o.map toBeBytes2).getD [] ++ rest) =
      .ok (o, rest) := by
  cases o with
  | none => rfl
  | some n =>
    have hn : n < 65536 := ho n rfl
    have hred : parseNetid (some n).isSome
        ((Option.map toBeBytes2 (some n)).getD [] ++ rest) =
        ParseOutcome.ok (some ((n / 256 % 256) <<< 8 ||| n % 256), rest) := rfl
    rw [hred]
    have h1 : n % 256 < 256 := Nat.mod_lt _ (by omega)
    rw [shiftLeft_or_byte _ _ h1]
    have : 256 * (n / 256 % 256) + n % 256 = n := by omega
    rw [this]

theorem trimmed_bytes_length (a : HamAddr) (hw : a.wf) :
    a.trimmed_bytes.length = a.len := by
  have h8 : a.octets.length = 8 := hw.1
  have := a.len_le_eight
  simp [HamAddr.trimmed_bytes, HamAddr.as_trimmed_slice, h8]
  omega

theorem readAddr_inv (a : HamAddr) (hw : a.wf) (rest : List Nat) :
    readAddr a.len (a.trimmed_bytes ++ rest) = .ok (a, rest) := by
  have hlen := trimmed_bytes_length a hw
  unfold readAddr
  rw [if_pos (by simp [hlen])]
  rw [List.take_append_of_le_length (by omega),
    List.drop_append_of_le_length (by omega)]
  rw [List.take_of_length_le (by omega), List.drop_of_length_le (by omega),
    List.nil_append]
  have heq : a.trimmed_bytes = a.as_trimmed_slice := rfl
  rw [heq, HamAddr.try_from_slice_trimmed a hw]

theorem parseRly_inv (o : Option HamAddr) (hw : ∀ r ∈ o, r.wf)
    (rest : List Nat) :
    parseRly o.isSome ((((o.map HamAddr.len).getD 2) / 2 - 1 + 1) * 2)
      ((o.map HamAddr.trimmed_bytes).getD [] ++ rest) = .ok (o, rest) := by
  cases o with
  | none => rfl
  | some r =>
    have hwr : r.wf := hw r rfl
    have h2 := r.two_le_len
    have h8 := r.len_le_eight
    have he := r.len_even
    have hl : (((some r).map HamAddr.len).getD 2 / 2 - 1 + 1) * 2 = r.len := by
      show (r.len / 2 - 1 + 1) * 2 = r.len
      omega
    rw [hl]
    have hred : ∀ ll, parseRly (some r).isSome r.len ll =
        (readAddr r.len ll).bind fun ar => .ok (some ar.1, ar.2) := fun ll => rfl
    rw [hred]
    have hseg : (Option.map HamAddr.trimmed_bytes (some r)).getD [] =
        r.trimmed_bytes := rfl
    rw [hseg, readAddr_inv r hwr rest]
    rfl

theorem parseAckCrc_inv_true (n : Nat) (hn : n < 65536) (rest : List Nat) :
    parseAckCrc true (toBeBytes2 n ++ rest) = .ok (n, rest) := by
  simp only [toBeBytes2, parseAckCrc, if_pos, List.cons_append,
    List.nil_append]
  rw [Nat.shiftLeft_eq]
  have : n / 256 % 256 * 2 ^ 8 + n % 256 = n := by omega
  rw [this]

/-! ## Security-header inversion -/

/-- Validity of a `SecInfo` value as constructed by the Rust code: the
key id is stored exactly in `KeyIndex` mode, the counter is a `u32`,
and the MIC buffer is a `[u8; 16]` whose bytes past the declared
length are zero (as `Mic::try_from_slice` produces). -/
def SecInfo.valid (si : SecInfo) : Prop :=
  (si.kid.isSome ↔ si.kim = KeyIdentMode.KeyIndex) ∧
  si.fcntr < 4294967296 ∧
  si.mic.code.length = 16 ∧
  si.mic.code.drop si.mic.size = List.replicate (16 - si.mic.size) 0

instance (si : SecInfo) : Decidable si.valid := by
  unfold SecInfo.valid; infer_instance

theorem Mic.size_le_sixteen (m : Mic) : m.size ≤ 16 := by
  cases m with
  | mk l c => cases l <;> simp [Mic.size, MicLen.bytelen]

theorem Mic.four_le_size (m : Mic) : 4 ≤ m.size := by
  cases m with
  | mk l c => cases l <;> simp [Mic.size, MicLen.bytelen]

theorem Mic.bytes_length (m : Mic) (h : m.code.length = 16) :
    m.bytes.length = m.size := by
  have := m.size_le_sixteen
  simp [Mic.bytes, h]
  omega

/-- `Mic::try_from_slice` inverts `Mic::bytes` for well-formed MICs. -/
theorem Mic.try_from_slice_bytes (m : Mic) (hlen : m.code.length = 16)
    (hzero : m.code.drop m.size = List.replicate (16 - m.size) 0) :
    Mic.try_from_slice m.bytes = some m := by
  have hbl := m.bytes_length hlen
  have h4 := m.four_le_size
  have h16 := m.size_le_sixteen
  have hml : MicLen.try_from_u8 (m.size / 4 - 1) = some m.len := by
    cases m with
    | mk l c =>
      cases l <;> simp [Mic.size, MicLen.bytelen, MicLen.try_from_u8]
  unfold Mic.try_from_slice
  rw [hbl, if_neg (by omega), hml]
  show some (⟨m.len, m.bytes ++ List.replicate (16 - m.size) 0⟩ : Mic) = some m
  have hcode : m.bytes ++ List.replicate (16 - m.size) 0 = m.code := by
    rw [← hzero]
    exact List.take_append_drop _ _
  rw [hcode]

/-- `SecInfo::from_iter` inverts `SecInfo::bytes` up to the MIC
content (which `from_iter` leaves zeroed). -/
theorem SecInfo.from_iter_bytes (si : SecInfo) (hv : si.valid)
    (rest : List Nat) :
    SecInfo.from_iter (si.bytes ++ rest) =
      .ok ({ si with mic := ⟨si.mic.len, Mic.EMPTY.code⟩ }, rest) := by
  obtain ⟨hkid, hfc, hlen, hzero⟩ := hv
  obtain ⟨he, hml, hkm⟩ := scf_fields si.enc si.mic.len.to_u8
    si.mic.len.ml_to_u8_lt si.kim.to_u8 si.kim.kim_to_u8_lt
  have hscf : si.scf = ((if si.enc then 1 else 0) <<< 7) +
      (si.mic.len.to_u8 <<< 5) + (si.kim.to_u8 <<< 3) := rfl
  have h1 : MicLen.try_from_u8 ((si.scf &&& 0b01100000) >>> 5) =
      some si.mic.len := by
    rw [hscf, hml]; exact si.mic.len.ml_try_from_to
  have h2 : KeyIdentMode.try_from_u8 ((si.scf &&& 0b00011000) >>> 3) =
      some si.kim := by
    rw [hscf, hkm]; exact si.kim.kim_try_from_to
  have h3 : (si.scf &&& 0b10000000 != 0) = si.enc := by rw [hscf]; exact he
  have hf : fromBeBytes4 (si.fcntr / 16777216 % 256) (si.fcntr / 65536 % 256)
      (si.fcntr / 256 % 256) (si.fcntr % 256) = si.fcntr := by
    unfold fromBeBytes4; omega
  have hb : si.bytes ++ rest = si.scf :: (si.fcntr / 16777216 % 256 ::
      si.fcntr / 65536 % 256 :: si.fcntr / 256 % 256 :: si.fcntr % 256 ::
      (si.kid.toList ++ rest)) := by
    simp [SecInfo.bytes, toBeBytes4]
  rw [hb]
  by_cases hk : si.kim = KeyIdentMode.KeyIndex
  · obtain ⟨k, hkeq⟩ := Option.isSome_iff_exists.mp (hkid.mpr hk)
    simp only [SecInfo.from_iter, h1, h2]
    simp [hk, hkeq, h3, hf]
  · have hknone : si.kid = none := by
      cases hkq : si.kid with
      | none => rfl
      | some k => exact absurd (hkid.mp (by rw [hkq]; rfl)) hk
    simp only [SecInfo.from_iter, h1, h2]
    simp [hk, hknone, h3, hf]

theorem parseSecPayload_inv (o : Option SecInfo) (hv : ∀ si ∈ o, si.valid)
    (P : List Nat) :
    parseSecPayload o.isSome ((o.map SecInfo.bytes).getD [] ++
      (P ++ (o.map (fun s => s.mic.bytes)).getD [])) = .ok (o, P) := by
  cases o with
  | none => simp [parseSecPayload]
  | some si =>
    have hvs := hv si rfl
    have hmb : si.mic.bytes.length = si.mic.size :=
      Mic.bytes_length _ hvs.2.2.1
    have hts : Mic.try_from_slice si.mic.bytes = some si.mic :=
      Mic.try_from_slice_bytes _ hvs.2.2.1 hvs.2.2.2
    show parseSecPayload true (si.bytes ++ (P ++ si.mic.bytes)) =
      .ok (some si, P)
    unfold parseSecPayload
    rw [if_pos rfl]
    rw [SecInfo.from_iter_bytes si hvs (P ++ si.mic.bytes),
      ParseOutcome.ok_bind]
    have hsz : ({ si with mic := ⟨si.mic.len, Mic.EMPTY.code⟩ } :
        SecInfo).mic.size = si.mic.size := rfl
    simp only [hsz]
    have hlen2 : (P ++ si.mic.bytes).length = P.length + si.mic.size := by
      simp [hmb]
    rw [if_neg (by omega)]
    have hdp : (P ++ si.mic.bytes).length - si.mic.size = P.length := by
      omega
    rw [hdp, List.drop_left, List.take_left, hts]

/-! ## Frame round-trip (claim C1) -/

instance optionBAllDecidable {α : Type} (p : α → Prop) [DecidablePred p]
    (o : Option α) : Decidable (∀ x ∈ o, p x) := by
  cases o with
  | none => exact isTrue (by simp)
  | some a => exact decidable_of_iff (p a) (by simp)

/-- Conditions under which a `FrameInfo` is a faithful image of a
value the Rust code can hold and serialise: address buffers are
`[u8; 8]`, numeric fields fit their machine types, the security
header is internally consistent (`SecInfo.valid`), Ack frames carry
only a source and a CRC (the other fields are not serialised, and the
payload must be empty or serialisation asserts), and non-Ack frames
have a zero `ack_crc` (that field is not serialised). -/
def FrameInfo.Valid (F : FrameInfo) (P : List Nat) : Prop :=
  F.dst_addr.wf ∧ F.src_addr.wf ∧
  (∀ r ∈ F.rly_addr, r.wf) ∧
  (∀ n ∈ F.network_id, n < 65536) ∧
  F.ack_crc < 65536 ∧
  (∀ si ∈ F.sec_info, si.valid) ∧
  (F.frame_type = FrameType.Ack →
    P = [] ∧ F.dst_addr = HamAddr.EMPTY ∧ F.network_id = none ∧
    F.rly_addr = none ∧ F.sec_info = none ∧ F.ack_requested = false ∧
    F.is_from_relay = false) ∧
  (F.frame_type ≠ FrameType.Ack → F.ack_crc = 0)

instance (F : FrameInfo) (P : List Nat) : Decidable (F.Valid P) := by
  unfold FrameInfo.Valid; infer_instance

/-- Parsing an Ack frame body. -/
theorem try_from_bytes_ack_shape (src : HamAddr) (hsw : src.wf)
    (crc : Nat) (hcrc : crc < 65536) :
    FrameInfo.try_from_bytes
      ((FrameInfo.mk FrameType.Ack false false none HamAddr.EMPTY src
        none none crc).fcf_msb :: (src.trimmed_bytes ++ toBeBytes2 crc)) =
      .ok (⟨FrameType.Ack, false, false, none, HamAddr.EMPTY, src,
        none, none, crc⟩, []) := by
  have h2 := src.two_le_len
  have h8 := src.len_le_eight
  have hev := src.len_even
  have htl := trimmed_bytes_length src hsw
  have hs4 : src.len / 2 - 1 < 4 := by omega
  obtain ⟨hver, hdf, htf, hsf⟩ := fcf_msb_fields _ (FrameType.ft_to_u8_lt .Ack)
    _ (show HamAddr.EMPTY.len / 2 - 1 < 4 by decide) _ hs4
  have hmsb : (FrameInfo.mk FrameType.Ack false false none HamAddr.EMPTY src
      none none crc).fcf_msb =
      (VERSION_EXPERIMENTAL <<< 6) + (FrameType.to_u8 .Ack <<< 4) +
      ((HamAddr.EMPTY.len / 2 - 1) <<< 2) + (src.len / 2 - 1) := rfl
  have hsl : (src.len / 2 - 1 + 1) * 2 = src.len := by omega
  have hpf : parseFlags FrameType.Ack (src.trimmed_bytes ++ toBeBytes2 crc) =
      .ok (⟨false, false, false, false, false, 0, false⟩,
        src.trimmed_bytes ++ toBeBytes2 crc) := rfl
  have hpn : ∀ l, parseNetid false l = .ok (none, l) := fun _ => rfl
  have hpd : ∀ n l, parseDst false n l = .ok (HamAddr.EMPTY, l) :=
    fun _ _ => rfl
  have hra : readAddr src.len (src.trimmed_bytes ++ toBeBytes2 crc) =
      .ok (src, toBeBytes2 crc) := by
    have := readAddr_inv src hsw (toBeBytes2 crc)
    simpa using this
  have hpr : ∀ n l, parseRly false n l = .ok (none, l) := fun _ _ => rfl
  have hac : parseAckCrc true (toBeBytes2 crc) = .ok (crc, []) := by
    have := parseAckCrc_inv_true crc hcrc []
    simpa using this
  have hsp : parseSecPayload false [] = .ok (none, []) := rfl
  simp only [VERSION_EXPERIMENTAL, VERSION_1] at hver hdf htf hsf hmsb
  unfold FrameInfo.try_from_bytes
  rw [if_neg (by simp [toBeBytes2, htl]; omega)]
  rw [hmsb]
  simp only [hver, hdf, htf, hsf, FrameType.ft_try_from_to, hsl, hpf, hpn, hpd,
    hra, hpr, hac, hsp, ParseOutcome.ok_bind, ne_eq, not_true_eq_false,
    false_and, if_false]
  rw [if_neg (by simp [VERSION_EXPERIMENTAL])]
  rw [show (FrameType.Ack == FrameType.Ack) = true from rfl, hac,
    ParseOutcome.ok_bind, hsp, ParseOutcome.ok_bind]

/-- Parsing a non-Ack frame body produced by the serialiser. -/
theorem try_from_bytes_nonack_shape (ft : FrameType)
    (hft : ft ≠ FrameType.Ack) (ar ifr : Bool) (nid : Option Nat)
    (dst src : HamAddr) (rly : Option HamAddr) (sec : Option SecInfo)
    (hdw : dst.wf) (hsw : src.wf) (hrw : ∀ r ∈ rly, r.wf)
    (hnid : ∀ n ∈ nid, n < 65536) (hsec : ∀ si ∈ sec, si.valid)
    (P : List Nat) :
    FrameInfo.try_from_bytes
      ((FrameInfo.mk ft ar ifr nid dst src rly sec 0).fcf_msb ::
        ((((if sec.isSome then 1 else 0) <<< 7) +
          ((if nid.isSome then 1 else 0) <<< 6) +
          ((if ar then 1 else 0) <<< 5) +
          ((if rly.isSome then 1 else 0) <<< 4) +
          ((if ifr then 1 else 0) <<< 3) +
          (((rly.map HamAddr.len).getD 2) / 2 - 1)) ::
        ((nid.map toBeBytes2).getD [] ++
        (dst.trimmed_bytes ++
        (src.trimmed_bytes ++
        ((rly.map HamAddr.trimmed_bytes).getD [] ++
        ((sec.map SecInfo.bytes).getD [] ++
        (P ++ (sec.map (fun s => s.mic.bytes)).getD [])))))))) =
      .ok (⟨ft, ar, ifr, nid, dst, src, rly, sec, 0⟩, P) := by
  have hd2 := dst.two_le_len
  have hd8 := dst.len_le_eight
  have hdev := dst.len_even
  have hs2 := src.two_le_len
  have hs8 := src.len_le_eight
  have hsev := src.len_even
  have hdtl := trimmed_bytes_length dst hdw
  have hstl := trimmed_bytes_length src hsw
  have hd4 : dst.len / 2 - 1 < 4 := by omega
  have hs4 : src.len / 2 - 1 < 4 := by omega
  have hrc4 : ((rly.map HamAddr.len).getD 2) / 2 - 1 < 4 := by
    cases rly with
    | none => decide
    | some r =>
      have := r.len_le_eight
      show r.len / 2 - 1 < 4
      omega
  obtain ⟨hver, hdf, htf, hsf⟩ := fcf_msb_fields _ ft.ft_to_u8_lt _ hd4 _ hs4
  obtain ⟨hb1, hb2, hb3, hb4, hb5, hb6⟩ := fcf_lsb_fields sec.isSome
    nid.isSome ar rly.isSome ifr _ hrc4
  have hmsb : (FrameInfo.mk ft ar ifr nid dst src rly sec 0).fcf_msb =
      (VERSION_EXPERIMENTAL <<< 6) + (ft.to_u8 <<< 4) +
      ((dst.len / 2 - 1) <<< 2) + (src.len / 2 - 1) := rfl
  have hdl : (dst.len / 2 - 1 + 1) * 2 = dst.len := by omega
  have hsl : (src.len / 2 - 1 + 1) * 2 = src.len := by omega
  have hpfl : ∀ (lsb : Nat) (l : List Nat), parseFlags ft (lsb :: l) =
      .ok (⟨lsb &&& 0b10000000 != 0, lsb &&& 0b01000000 != 0,
        lsb &&& 0b00100000 != 0, lsb &&& 0b00010000 != 0,
        lsb &&& 0b00001000 != 0, ((lsb &&& 0b11) + 1) * 2, true⟩, l) := by
    intro lsb l
    unfold parseFlags
    rw [if_pos hft]
  have hpd : ∀ n l, parseDst true n l = readAddr n l := fun _ _ => rfl
  have hbeq : (ft == FrameType.Ack) = false := by
    cases ft <;> simp_all
  have hpac : ∀ l, parseAckCrc false l = .ok (0, l) := fun _ => rfl
  simp only [VERSION_EXPERIMENTAL, VERSION_1] at hver hdf htf hsf hmsb
  unfold FrameInfo.try_from_bytes
  rw [if_neg (by simp [hdtl, hstl]; omega)]
  rw [hmsb]
  simp only [hver, hdf, htf, hsf, FrameType.ft_try_from_to, hdl, hsl, hpfl,
    ParseOutcome.ok_bind, ne_eq, not_true_eq_false, false_and, if_false]
  rw [if_neg (by simp [VERSION_EXPERIMENTAL])]
  simp only [hb1, hb2, hb3, hb4, hb5, hb6]
  rw [parseNetid_inv nid hnid _, ParseOutcome.ok_bind]
  rw [hpd, readAddr_inv dst hdw _, ParseOutcome.ok_bind]
  rw [readAddr_inv src hsw _, ParseOutcome.ok_bind]
  rw [show (((rly.map HamAddr.len).getD 2 / 2 - 1) + 1) * 2 =
    (((rly.map HamAddr.len).getD 2) / 2 - 1 + 1) * 2 from rfl]
  rw [parseRly_inv rly hrw _, ParseOutcome.ok_bind]
  rw [hbeq, hpac, ParseOutcome.ok_bind]
  rw [parseSecPayload_inv sec hsec P, ParseOutcome.ok_bind]

/-- The serialiser output of a non-Ack frame, as an explicit list. -/
theorem bytes_with_payload_nonack (F : FrameInfo)
    (hft : F.frame_type ≠ FrameType.Ack) (P : List Nat) :
    F.bytes_with_payload P = some (F.fcf_msb ::
      ((((if F.sec_info.isSome then 1 else 0) <<< 7) +
        ((if F.network_id.isSome then 1 else 0) <<< 6) +
        ((if F.ack_requested then 1 else 0) <<< 5) +
        ((if F.rly_addr.isSome then 1 else 0) <<< 4) +
        ((if F.is_from_relay then 1 else 0) <<< 3) +
        (((F.rly_addr.map HamAddr.len).getD 2) / 2 - 1)) ::
      ((F.network_id.map toBeBytes2).getD [] ++
      (F.dst_addr.trimmed_bytes ++
      (F.src_addr.trimmed_bytes ++
      ((F.rly_addr.map HamAddr.trimmed_bytes).getD [] ++
      ((F.sec_info.map SecInfo.bytes).getD [] ++
      (P ++ (F.sec_info.map (fun s => s.mic.bytes)).getD [])))))))) := by
  have hlsb : F.fcf_lsb = some (((if F.sec_info.isSome then 1 else 0) <<< 7) +
      ((if F.network_id.isSome then 1 else 0) <<< 6) +
      ((if F.ack_requested then 1 else 0) <<< 5) +
      ((if F.rly_addr.isSome then 1 else 0) <<< 4) +
      ((if F.is_from_relay then 1 else 0) <<< 3) +
      (((F.rly_addr.map HamAddr.len).getD 2) / 2 - 1)) := by
    unfold FrameInfo.fcf_lsb
    rw [if_pos hft]
  unfold FrameInfo.bytes_with_payload
  rw [if_pos hft]
  simp [hlsb, List.append_assoc]

/-- The serialiser output of an Ack frame with empty payload. -/
theorem bytes_with_payload_ack (F : FrameInfo)
    (hft : F.frame_type = FrameType.Ack) :
    F.bytes_with_payload [] = some (F.fcf_msb ::
      (F.src_addr.trimmed_bytes ++ toBeBytes2 F.ack_crc)) := by
  have hlsb : F.fcf_lsb = none := by
    unfold FrameInfo.fcf_lsb
    rw [if_neg (by simp [hft])]
  unfold FrameInfo.bytes_with_payload
  rw [if_neg (by simp [hft])]
  simp [hlsb, List.append_assoc]

/-- **C1.** For every valid `FrameInfo` `F` and payload `P`,
`FrameInfo::try_from_bytes(F.bytes_with_payload(P).collect())` returns
`Ok((F, P))`: frame type, flags, network id, trimmed addresses,
security header (with MIC bytes), ack CRC and the exact payload all
round-trip. -/
theorem frame_info_roundtrip (F : FrameInfo) (P : List Nat)
    (hv : F.Valid P) :
    ∃ bs, F.bytes_with_payload P = some bs ∧
      FrameInfo.try_from_bytes bs = .ok (F, P) := by
  obtain ⟨hdw, hsw, hrw, hnid, hcrc, hsec, hack, hnack⟩ := hv
  by_cases hft : F.frame_type = FrameType.Ack
  · obtain ⟨hP, hdst, hnid0, hrly0, hsec0, har, hifr⟩ := hack hft
    subst hP
    refine ⟨_, bytes_with_payload_ack F hft, ?_⟩
    obtain ⟨ft, ar, ifr, nid, dst, src, rly, sec, crc⟩ := F
    simp only at hft hdst hnid0 hrly0 hsec0 har hifr hsw hcrc
    subst hft hdst hnid0 hrly0 hsec0 har hifr
    exact try_from_bytes_ack_shape src hsw crc hcrc
  · have hcrc0 : F.ack_crc = 0 := hnack hft
    refine ⟨_, bytes_with_payload_nonack F hft P, ?_⟩
    obtain ⟨ft, ar, ifr, nid, dst, src, rly, sec, crc⟩ := F
    simp only at hft hcrc0 hdw hsw hrw hnid hsec
    subst hcrc0
    exact try_from_bytes_nonack_shape ft hft ar ifr nid dst src rly sec
      hdw hsw hrw hnid hsec P

/-- Witness for C1: the round-trip theorem applied to a concrete Data
frame with a 2-byte payload. -/
theorem frame_info_roundtrip_witness :
    ∃ bs, (FrameInfo.mk FrameType.Data true false (some 0x1234)
      (HamAddr.mk [1, 2, 3, 4, 0, 0, 0, 0]) (HamAddr.mk [9, 9, 0, 0, 0, 0, 0, 0])
      none none 0).bytes_with_payload [7, 8] = some bs ∧
      FrameInfo.try_from_bytes bs = .ok (FrameInfo.mk FrameType.Data true
        false (some 0x1234) (HamAddr.mk [1, 2, 3, 4, 0, 0, 0, 0])
        (HamAddr.mk [9, 9, 0, 0, 0, 0, 0, 0]) none none 0, [7, 8]) :=
  frame_info_roundtrip _ _ (by decide)

/-- Cross-check of the embedding against the repository's own test
vector (`frame_test_vec_1` in frame_info.rs). -/
theorem frame_test_vec_1_check :
    FrameInfo.try_from_bytes
      [0x05, 0x40, 0x13, 0x37, 0x5C, 0xAC, 0x70, 0xF8, 0x5C, 0xB6, 0x26,
       0xE8, 0x06, 0x28, 0x39, 0x41, 0x4D, 0x2D, 0x54, 0x41, 0x4B, 0x00,
       0x29, 0x18, 0xFA, 0x9C] =
      .ok (⟨FrameType.Beacon, false, false, some 0x1337,
        ⟨[0x5C, 0xAC, 0x70, 0xF8, 0, 0, 0, 0]⟩,
        ⟨[0x5C, 0xB6, 0x26, 0xE8, 0, 0, 0, 0]⟩, none, none, 0⟩,
        [0x06, 0x28, 0x39, 0x41, 0x4D, 0x2D, 0x54, 0x41, 0x4B, 0x00, 0x29,
         0x18, 0xFA, 0x9C]) := by
  decide

/-! ### Claim C2: failure behaviour of `try_from_bytes`

The Rust parser returns `Err` for inputs shorter than 5 bytes and for
unknown versions, but it *panics* (it does not return an error) when a
declared address length exceeds the remaining bytes, when the declared
MIC does not fit, or when other declared fields run past the end of
the input: the address fields are cut with `&iter.as_slice()[..len]`
(an out-of-range slice panics) and the MIC split uses
`payload_and_mic.len() - mic_len` (a `usize` underflow /
out-of-range `split_at`, both panics). -/

/-- **C2.** Evaluation of the parser at a 5-byte input whose declared
destination-address length (8) exceeds the 3 remaining bytes: the
code panics instead of returning an error, refuting the claim that
every such failure is an error return. -/
theorem try_from_bytes_panics_on_short_addr :
    FrameInfo.try_from_bytes [0x0C, 0x00, 0xAA, 0xBB, 0xCC] =
      ParseOutcome.panicked ∧
    FrameInfo.try_from_bytes [] = ParseOutcome.error ∧
    FrameInfo.try_from_bytes [0xC0, 0, 0, 0, 0] = ParseOutcome.error := by
  decide

/-! ### Claim C6: Ack frame invariants -/

/-- **C6.** For an Ack frame: `fcf_lsb()` is `None` (no FCF LSB octet
is serialised); `bytes_with_payload(P)` hits the
`assert!(payload.is_empty())` panic (modelled `none`) for every
non-empty `P`; and for the empty payload the serialised body is
exactly `FCF_MSB`, the trimmed source address, and the 2-byte
big-endian `ack_crc`. -/
theorem ack_frame_invariants (F : FrameInfo)
    (hft : F.frame_type = FrameType.Ack) (hcrc : F.ack_crc < 65536) :
    F.fcf_lsb = none ∧
    (∀ P, P ≠ [] → F.bytes_with_payload P = none) ∧
    F.bytes_with_payload [] = some (F.fcf_msb ::
      (F.src_addr.trimmed_bytes ++ [F.ack_crc / 256, F.ack_crc % 256])) := by
  refine ⟨?_, ?_, ?_⟩
  · unfold FrameInfo.fcf_lsb
    rw [if_neg (by simp [hft])]
  · intro P hP
    unfold FrameInfo.bytes_with_payload
    rw [if_neg (by simp [hft]), if_pos hP]
  · rw [bytes_with_payload_ack F hft]
    have : toBeBytes2 F.ack_crc = [F.ack_crc / 256, F.ack_crc % 256] := by
      unfold toBeBytes2
      have : F.ack_crc / 256 % 256 = F.ack_crc / 256 := by omega
      rw [this]
    rw [this]

/-- Witness for C6: a concrete Ack frame. -/
theorem ack_frame_invariants_witness :
    (FrameInfo.mk FrameType.Ack false false none HamAddr.EMPTY
      (HamAddr.mk [9, 9, 0, 0, 0, 0, 0, 0]) none none 0xBEEF).fcf_lsb =
        none ∧
    (∀ P, P ≠ [] → (FrameInfo.mk FrameType.Ack false false none
      HamAddr.EMPTY (HamAddr.mk [9, 9, 0, 0, 0, 0, 0, 0]) none none
      0xBEEF).bytes_with_payload P = none) ∧
    (FrameInfo.mk FrameType.Ack false false none HamAddr.EMPTY
      (HamAddr.mk [9, 9, 0, 0, 0, 0, 0, 0]) none none
      0xBEEF).bytes_with_payload [] = some
        ((FrameInfo.mk FrameType.Ack false false none HamAddr.EMPTY
          (HamAddr.mk [9, 9, 0, 0, 0, 0, 0, 0]) none none
          0xBEEF).fcf_msb ::
        ((HamAddr.mk [9, 9, 0, 0, 0, 0, 0, 0]).trimmed_bytes ++
          [0xBEEF / 256, 0xBEEF % 256])) :=
  ack_frame_invariants _ rfl (by decide)

/-! ## MAC receive filter: network admission (claim C3)

`Mac::listen` (mac.rs, lines 70-73) drops a parsed frame when
`frame_info.network_id.unwrap_or(NetworkId(0)) != self.netid`. -/

/-- The network-admission drop test of `Mac::listen`. -/
def mac_network_admission_drops (network_id : Option Nat) (netid : Nat) :
    Bool :=
  network_id.getD 0 != netid

/-- **C3, counterexample.** A frame whose `network_id` is absent *is*
dropped when the configured `NetworkId` is not zero, although the
claim says the admission step never drops such a frame: at
`network_id = None`, `netid = 1` the code drops while the claimed
condition (present and unequal) is false. -/
theorem mac_admission_counterexample :
    mac_network_admission_drops none 1 = true ∧
    ¬ ((none : Option Nat).isSome = true ∧ (none : Option Nat) ≠ some 1) := by
  decide

/-- **C3, amended.** The admission step drops a frame iff its
`network_id` is present and differs from the configured `NetworkId`,
or is absent while the configured `NetworkId` is non-zero (an absent
id is treated as `NetworkId(0)`). -/
theorem mac_admission_spec (o : Option Nat) (netid : Nat) :
    mac_network_admission_drops o netid = true ↔
      ((∃ n, o = some n ∧ n ≠ netid) ∨ (o = none ∧ netid ≠ 0)) := by
  cases o with
  | none =>
    simp [mac_network_admission_drops, bne_iff_ne]
    omega
  | some n =>
    simp [mac_network_admission_drops, bne_iff_ne]

/-! ## FSK slicer (claim C4; quick-dsp/src/filter/fsk_demod.rs)

The slicer works on `f32`/`f64` pairs.  Floating-point values are
modelled as exact rationals plus non-finite values; finite arithmetic
is idealised as exact (no rounding), and arithmetic on non-finite
inputs — which the theorems below never reach, since the code tests
finiteness first — collapses to `nan`. -/

inductive FP
  | fin (q : ℚ)
  | nan
  | inf
  | ninf
deriving DecidableEq, Repr

/-- `is_finite`. -/
def FP.is_finite : FP → Bool
  | .fin _ => true
  | _ => false

def FP.add : FP → FP → FP
  | .fin a, .fin b => .fin (a + b)
  | _, _ => .nan

def FP.sub : FP → FP → FP
  | .fin a, .fin b => .fin (a - b)
  | _, _ => .nan

def FP.mul : FP → FP → FP
  | .fin a, .fin b => .fin (a * b)
  | _, _ => .nan

/-- Division; a zero divisor yields a non-finite value. -/
def FP.div : FP → FP → FP
  | .fin a, .fin b => if b = 0 then .nan else .fin (a / b)
  | _, _ => .nan

/-- IEEE-style partial order, `<=`: comparisons with `nan` are false. -/
def FP.le : FP → FP → Bool
  | .fin a, .fin b => a ≤ b
  | .nan, _ => false
  | _, .nan => false
  | .ninf, _ => true
  | _, .inf => true
  | .inf, _ => false
  | _, .ninf => false

/-- IEEE-style partial order, `<`. -/
def FP.lt : FP → FP → Bool
  | .fin a, .fin b => a < b
  | .nan, _ => false
  | _, .nan => false
  | .inf, _ => false
  | _, .inf => true
  | .ninf, .ninf => false
  | .ninf, _ => true
  | _, .ninf => false

/-- `FskDemod` state. -/
structure FskDemod where
  offset : FP
  scale : FP
  last_mag : FP
deriving DecidableEq, Repr

/-- `FskDemod::new(zero, one)`. -/
def FskDemod.new (zero one : FP) : FskDemod :=
  ⟨(zero.add one).mul (.fin (1 / 2)),
   ((FP.fin 1).div (one.sub zero)).mul (.fin 2),
   .fin 0⟩

/-- `FskDemod::filter` on a discriminator output pair
`(angle/frequency, magnitude²)`.  Note the Rust code tests `sample.0`
— the *frequency* component — for finiteness and positivity; the
magnitude component `sample.1` is never inspected. -/
def FskDemod.filter (d : FskDemod) (sample : FP × FP) : Option Bool :=
  if ¬ sample.fst.is_finite ∨ sample.fst.le (.fin 0) then none
  else
    some ((FP.fin 0).lt ((sample.fst.sub d.offset).mul d.scale))

/-- **C4, counterexample.** The Bell-202 slicer `FskDemod::new(space,
mark)` at sample rate 7200 (`space = 11/36`, `mark = 1/6`), fed the
discriminator pair `(1/6, 0)`: the magnitude component is zero (non-
positive), so the claim demands `None`, but the code — which only
inspects the frequency component — returns `Some(true)`. -/
theorem fsk_filter_counterexample :
    (FskDemod.new (.fin (11 / 36)) (.fin (1 / 6))).filter
      (.fin (1 / 6), .fin 0) = some true ∧
    (FP.fin 0).is_finite = true ∧
    (FP.fin 0).le (.fin 0) = true := by
  refine ⟨?_, rfl, by decide⟩
  show (if ¬ (FP.fin (1 / 6)).is_finite ∨ (FP.fin (1 / 6)).le (.fin 0)
    then none
    else some ((FP.fin 0).lt (((FP.fin (1 / 6)).sub
      ((((FP.fin (11 / 36)).add (.fin (1 / 6))).mul (.fin (1 / 2)))))|>.mul
      ((((FP.fin 1).div ((FP.fin (1 / 6)).sub (.fin (11 / 36)))).mul
        (.fin 2)))))) = some true
  norm_num [FP.is_finite, FP.le, FP.lt, FP.sub, FP.add, FP.mul, FP.div]

/-- **C4, amended.** The slicer returns `None` iff the *frequency*
(first) component of the discriminator pair is non-finite or
non-positive — the magnitude component is never inspected.  On a
finite positive frequency `q`, with `mark < space` as in the Bell-202
decoder (`FskDemod::new(space, mark)`), it returns `Some(true)`
exactly on the mark side of the mark/space midpoint. -/
theorem fsk_filter_spec (zero one : ℚ) (x m : FP) :
    ((FskDemod.new (.fin zero) (.fin one)).filter (x, m) = none ↔
      (x.is_finite = false ∨ x.le (.fin 0) = true)) ∧
    (∀ q : ℚ, x = .fin q → 0 < q → one < zero →
      (FskDemod.new (.fin zero) (.fin one)).filter (x, m) =
        some (decide (q < (zero + one) / 2))) := by
  constructor
  · unfold FskDemod.filter
    split_ifs with h
    · simp only [Bool.not_eq_true] at h
      simpa using h
    · push_neg at h
      simp [h.1, h.2]
  · intro q hx h0 hone
    subst hx
    have hne : one - zero ≠ 0 := by
      intro h
      rw [sub_eq_zero] at h
      exact absurd h (ne_of_lt hone)
    have hs : (1 : ℚ) / (one - zero) * 2 < 0 := by
      have h1 : one - zero < 0 := by linarith
      have h2 : (1 : ℚ) / (one - zero) < 0 := div_neg_of_pos_of_neg one_pos h1
      linarith
    have key : (0 < (q - (zero + one) * (1 / 2)) *
        ((1 : ℚ) / (one - zero) * 2)) ↔ q < (zero + one) / 2 := by
      rw [mul_pos_iff]
      constructor
      · rintro (⟨ha, hs2⟩ | ⟨ha, -⟩)
        · linarith
        · linarith
      · intro h
        exact Or.inr ⟨by linarith, hs⟩
    simp only [FskDemod.filter, FskDemod.new, FP.is_finite, FP.le, FP.sub,
      FP.add, FP.mul, FP.div, if_neg hne]
    rw [if_neg (by simp; exact h0)]
    congr 1
    rw [show FP.lt (.fin 0) (.fin ((q - (zero + one) * (1 / 2)) *
      ((1 : ℚ) / (one - zero) * 2))) = decide (0 < (q - (zero + one) *
      (1 / 2)) * ((1 : ℚ) / (one - zero) * 2)) from rfl]
    rw [decide_eq_decide]
    exact key

/-- Witness for C4: the Bell-202 slicer at 7200 Hz sample rate maps a
frequency on the mark side of the midpoint to `Some(true)`. -/
theorem fsk_filter_spec_witness :
    (FskDemod.new (.fin (11 / 36)) (.fin (1 / 6))).filter
      (.fin (2 / 9), .fin 1) =
      some (decide ((2 / 9 : ℚ) < ((11 / 36) + (1 / 6)) / 2)) :=
  (fsk_filter_spec (11 / 36) (1 / 6) (.fin (2 / 9)) (.fin 1)).2 (2 / 9) rfl
    (by norm_num) (by norm_num)

/-! ## HDLC decoder and frame collector (quick-dsp/src/filter/hdlc.rs) -/

/-- `FrameSignal`. -/
inductive FrameSignal
  | Octet (x : Nat)
  | FrameMarker
  | DecodeError
deriving DecidableEq, Repr

/-- `HdlcDecode` state.  `accum` is a `u8`, `bit`, `ones` and
`empty_bits` are `u8` counters (modelled as `Nat`; all reachable
values are far below 256). -/
structure HdlcDecode where
  accum : Nat
  bit : Nat
  ones : Nat
  skip_next_zero : Bool
  reset_next : Bool
  is_running : Bool
  empty_bits : Nat
deriving DecidableEq, Repr

/-- `HdlcDecode::default()`; `Reset::reset` restores exactly this
state. -/
def HdlcDecode.initial : HdlcDecode := ⟨0, 0, 0, false, false, false, 0⟩

/-- `Filter<bool>::filter` for `HdlcDecode`. -/
def HdlcDecode.filterBit (s : HdlcDecode) (sample : Bool) :
    HdlcDecode × Option FrameSignal :=
  if s.reset_next then
    if ¬ sample ∧ (¬ s.is_running ∨ s.bit = 6 ∨ s.bit = 5) then
      ({ HdlcDecode.initial with is_running := true }, some .FrameMarker)
    else if s.is_running then
      (HdlcDecode.initial, some .DecodeError)
    else
      (HdlcDecode.initial, none)
  else if s.skip_next_zero then
    ({ s with skip_next_zero := false, reset_next := sample }, none)
  else
    let accum := (s.accum >>> 1) ||| ((if sample then 1 else 0) <<< 7)
    let ones := if sample then s.ones + 1 else 0
    let skip := ones == 5
    let ones2 := if ones = 5 then 0 else ones
    let bit := s.bit + 1
    if bit ≥ 8 then
      ({ s with
          accum := accum
          ones := ones2
          skip_next_zero := skip
          bit := 0 },
        if s.is_running then some (.Octet accum) else none)
    else
      ({ s with
          accum := accum
          ones := ones2
          skip_next_zero := skip
          bit := bit }, none)

/-- `Filter<Option<bool>>::filter` for `HdlcDecode`: a present sample
clears the empty-input counter and runs the bit filter; an absent
sample bumps the counter and resets the whole state once it exceeds
20. -/
def HdlcDecode.filterOpt (s : HdlcDecode) (sample : Option Bool) :
    HdlcDecode × Option FrameSignal :=
  match sample with
  | some b => HdlcDecode.filterBit { s with empty_bits := 0 } b
  | none =>
    if s.empty_bits + 1 > 20 then (HdlcDecode.initial, none)
    else ({ s with empty_bits := s.empty_bits + 1 }, none)

/-- Iterated feeding of empty (`None`) inputs. -/
def HdlcDecode.applyNones (s : HdlcDecode) : Nat → HdlcDecode
  | 0 => s
  | n + 1 => HdlcDecode.applyNones (s.filterOpt none).1 n

/-- Feeding a list of raw bits (states only). -/
def HdlcDecode.runBits (s : HdlcDecode) (l : List Bool) : HdlcDecode :=
  l.foldl (fun st b => (st.filterBit b).1) s

theorem HdlcDecode.applyNones_add (s : HdlcDecode) (a b : Nat) :
    s.applyNones (a + b) = (s.applyNones a).applyNones b := by
  induction a generalizing s with
  | zero => rw [Nat.zero_add]; rfl
  | succ a ih =>
    have : a + 1 + b = (a + b) + 1 := by omega
    rw [this]
    show ((s.filterOpt none).1).applyNones (a + b) = _
    rw [ih]
    rfl

theorem HdlcDecode.applyNones_le (base : HdlcDecode) :
    ∀ k e, e + k ≤ 20 →
      HdlcDecode.applyNones { base with empty_bits := e } k =
        { base with empty_bits := e + k } := by
  intro k
  induction k with
  | zero => intro e he; rfl
  | succ k ih =>
    intro e he
    show HdlcDecode.applyNones
      (({ base with empty_bits := e } : HdlcDecode).filterOpt none).1 k = _
    have hstep : (({ base with empty_bits := e } : HdlcDecode).filterOpt
        none).1 = { base with empty_bits := e + 1 } := by
      unfold HdlcDecode.filterOpt
      rw [if_neg (by simp; omega)]
    rw [hstep, ih (e + 1) (by omega)]
    have : e + 1 + k = e + (k + 1) := by omega
    rw [this]

/-- **C5, counterexample.** Take the reachable decoder state obtained
by feeding a frame-marker pattern `01111110` from the initial state
(the decoder is then running).  After 20 consecutive `None` inputs
the decoder has *not* been reset: it is still running with its
empty-input counter at 20; the reset happens only on the 21st
consecutive `None`. -/
theorem hdlc_twenty_nones_counterexample :
    ((HdlcDecode.runBits HdlcDecode.initial
        [false, true, true, true, true, true, true, false]).is_running
      = true) ∧
    (HdlcDecode.applyNones (HdlcDecode.runBits HdlcDecode.initial
        [false, true, true, true, true, true, true, false]) 20 ≠
      HdlcDecode.initial) ∧
    ((HdlcDecode.applyNones (HdlcDecode.runBits HdlcDecode.initial
        [false, true, true, true, true, true, true, false]) 20).is_running
      = true) ∧
    (HdlcDecode.applyNones (HdlcDecode.runBits HdlcDecode.initial
        [false, true, true, true, true, true, true, false]) 21 =
      HdlcDecode.initial) := by
  decide

/-- **C5, amended.** Every `None` input produces output `None`; from
any state whose empty-input counter is clear (as it is after any
present sample), the first 20 consecutive `None` inputs leave the
whole state unchanged except for the empty-input counter, and the
21st consecutive `None` (counter exceeding 20) resets the decoder to
its initial, not-running state. -/
theorem hdlc_none_spec (s : HdlcDecode) :
    ((s.filterOpt none).2 = none) ∧
    (s.empty_bits = 0 →
      (∀ k, k ≤ 20 → s.applyNones k = { s with empty_bits := k }) ∧
      s.applyNones 21 = HdlcDecode.initial) := by
  constructor
  · unfold HdlcDecode.filterOpt
    split_ifs <;> rfl
  · intro h0
    obtain ⟨ac, bi, onn, sk, rn, ir, eb⟩ := s
    simp only at h0
    subst h0
    constructor
    · intro k hk
      have := HdlcDecode.applyNones_le ⟨ac, bi, onn, sk, rn, ir, 0⟩ k 0
        (by omega)
      simpa using this
    · have h20 : HdlcDecode.applyNones ⟨ac, bi, onn, sk, rn, ir, 0⟩ 20 =
          ⟨ac, bi, onn, sk, rn, ir, 20⟩ := by
        have := HdlcDecode.applyNones_le ⟨ac, bi, onn, sk, rn, ir, 0⟩ 20 0
          (by omega)
        simpa using this
      have : (21 : Nat) = 20 + 1 := rfl
      rw [this, HdlcDecode.applyNones_add, h20]
      rfl

/-- Witness for C5: the amended behaviour at the initial state. -/
theorem hdlc_none_spec_witness :
    ((HdlcDecode.initial.filterOpt none).2 = none) ∧
    ((∀ k, k ≤ 20 → HdlcDecode.initial.applyNones k =
      { HdlcDecode.initial with empty_bits := k }) ∧
      HdlcDecode.initial.applyNones 21 = HdlcDecode.initial) :=
  ⟨(hdlc_none_spec HdlcDecode.initial).1,
   (hdlc_none_spec HdlcDecode.initial).2 rfl⟩

/-- `FrameCollector` state. -/
structure FrameCollector where
  frame : List Nat
deriving DecidableEq, Repr

/-- `FrameCollector::filter`: octets accumulate, a frame marker with a
non-empty buffer yields the buffer and clears it, a decode error
clears it, everything else (including a marker with an empty buffer
and absent input) is ignored. -/
def FrameCollector.filter (s : FrameCollector)
    (sample : Option FrameSignal) : FrameCollector × Option (List Nat) :=
  match sample with
  | some (.Octet x) => (⟨s.frame ++ [x]⟩, none)
  | some .FrameMarker =>
    if s.frame ≠ [] then (⟨[]⟩, some s.frame) else (s, none)
  | some .DecodeError => (⟨[]⟩, none)
  | none => (s, none)

/-- **C9.** From any collector state, `filter` yields `Some(v)` only
on a `FrameMarker` input with a non-empty accumulated buffer — so
every yielded frame satisfies `v.len() >= 1` — and the internal
buffer is empty immediately after yielding, as it is after a
`DecodeError`. -/
theorem frame_collector_spec (s : FrameCollector)
    (inp : Option FrameSignal) :
    (∀ v, (s.filter inp).2 = some v →
      inp = some FrameSignal.FrameMarker ∧ 1 ≤ v.length ∧
      (s.filter inp).1.frame = []) ∧
    (inp = some FrameSignal.DecodeError → (s.filter inp).1.frame = []) := by
  constructor
  · intro v hv
    cases inp with
    | none => simp [FrameCollector.filter] at hv
    | some sig =>
      cases sig with
      | Octet x => simp [FrameCollector.filter] at hv
      | DecodeError => simp [FrameCollector.filter] at hv
      | FrameMarker =>
        unfold FrameCollector.filter at hv ⊢
        by_cases hne : s.frame ≠ []
        · rw [if_pos hne] at hv ⊢
          cases hv
          refine ⟨rfl, ?_, rfl⟩
          have : 0 < s.frame.length := List.length_pos.mpr hne
          omega
        · rw [if_neg hne] at hv
          simp at hv
  · intro hinp
    subst hinp
    rfl

/-- Witness for C9: yielding a concrete one-byte frame. -/
theorem frame_collector_spec_witness :
    some FrameSignal.FrameMarker = some FrameSignal.FrameMarker ∧
    1 ≤ [7].length ∧
    ((FrameCollector.mk [7]).filter (some FrameSignal.FrameMarker)).1.frame
      = [] :=
  (frame_collector_spec ⟨[7]⟩ (some FrameSignal.FrameMarker)).1 [7]
    (by decide)

/-! ## CRC-16/IBM-SDLC and the appending iterator (claim C8;
quick-dsp/src/filter/iter.rs)

The `crc` crate's `CRC_16_IBM_SDLC` algorithm (X.25): width 16,
polynomial `0x1021`, reflected in and out, initial value `0xFFFF`,
final xor `0xFFFF`.  In its reflected form the per-byte update xors
the byte into the low bits of the state and performs eight
shift-and-conditionally-xor steps with the reversed polynomial
`0x8408`. -/

/-- One reflected CRC bit step. -/
def crcStep (s : Nat) : Nat :=
  if s % 2 = 1 then (s >>> 1) ^^^ 0x8408 else s >>> 1

/-- Iterated bit steps. -/
def crcStepN : Nat → Nat → Nat
  | 0, s => s
  | n + 1, s => crcStepN n (crcStep s)

/-- `Digest::update` for one byte. -/
def crcUpdateByte (s b : Nat) : Nat := crcStepN 8 (s ^^^ b)

/-- `Crc::<u16>::checksum` / `digest().update(..).finalize()` over a
byte list. -/
def X25_checksum (l : List Nat) : Nat :=
  (l.foldl crcUpdateByte 0xFFFF) ^^^ 0xFFFF

/-- The byte list produced by collecting `CrcAppendIter` from the
`Running(iter, digest)` state: input bytes pass through while updating
the digest; at the end `finalize().to_le_bytes()` is appended low
byte first. -/
def crcAppendGo (digest : Nat) : List Nat → List Nat
  | [] => (digest ^^^ 0xFFFF) % 256 :: [(digest ^^^ 0xFFFF) / 256]
  | b :: rest => b :: crcAppendGo (crcUpdateByte digest b) rest

/-- `iter.append_crc(&X25).collect()`. -/
def append_crc (l : List Nat) : List Nat := crcAppendGo 0xFFFF l

/-- Cross-check against the published CRC-16/IBM-SDLC check value:
the digest of `"123456789"` is `0x906E`. -/
theorem X25_check_value :
    X25_checksum [0x31, 0x32, 0x33, 0x34, 0x35, 0x36, 0x37, 0x38, 0x39] =
      0x906E := by
  decide

/-- Feeding back the complemented state as two little-endian bytes
always lands on the pre-xor residue `0xF0B8`; reduced to 256 cases on
the high state byte. -/
theorem crc_key256 : ∀ h, h < 256 →
    crcUpdateByte (crcStepN 8 (h * 256 + 255)) (h ^^^ 255) = 0xF0B8 := by
  decide

/-- Xoring the complement of the low state byte into the state leaves
`high-byte * 256 + 255`. -/
theorem crc_low_byte_cancel (s : Nat) :
    s ^^^ ((s ^^^ 65535) % 256) = s / 256 * 256 + 255 := by
  have h255 : (255 : Nat) = 2 ^ 8 - 1 := by norm_num
  have h65535 : (65535 : Nat) = 2 ^ 16 - 1 := by norm_num
  have hdiv : s / 256 = s >>> 8 := by
    rw [Nat.shiftRight_eq_div_pow]
  have hmod : (256 : Nat) = 2 ^ 8 := by norm_num
  rw [hdiv]
  apply Nat.eq_of_testBit_eq
  intro j
  have hrhs : s >>> 8 * 256 + 255 = 2 ^ 8 * (s >>> 8) + 255 := by ring
  rw [hrhs]
  rw [Nat.testBit_mul_pow_two_add _ (by norm_num : (255 : Nat) < 2 ^ 8)]
  simp only [Nat.testBit_xor, hmod, Nat.testBit_mod_two_pow, h65535, h255,
    Nat.testBit_two_pow_sub_one]
  by_cases hj : j < 8
  · simp [hj, (show j < 16 by omega)]
  · rw [if_neg hj, Nat.testBit_shiftRight]
    have he : 8 + (j - 8) = j := by omega
    rw [he]
    simp [hj]

/-- The high byte of the complemented state is the complemented high
state byte. -/
theorem crc_high_byte_compl (s : Nat) :
    (s ^^^ 65535) / 256 = s / 256 ^^^ 255 := by
  have h255 : (255 : Nat) = 2 ^ 8 - 1 := by norm_num
  have h65535 : (65535 : Nat) = 2 ^ 16 - 1 := by norm_num
  have hdiv : ∀ x : Nat, x / 256 = x >>> 8 := fun x => by
    rw [Nat.shiftRight_eq_div_pow]
  rw [hdiv, hdiv]
  apply Nat.eq_of_testBit_eq
  intro j
  rw [Nat.testBit_shiftRight, Nat.testBit_xor, Nat.testBit_xor,
    Nat.testBit_shiftRight]
  simp only [h255, h65535, Nat.testBit_two_pow_sub_one]
  congr 1
  rcases Nat.lt_or_ge j 8 with hj | hj
  · simp [(show 8 + j < 16 by omega), hj]
  · simp [(show ¬(8 + j < 16) by omega), (show ¬(j < 8) by omega)]

theorem crcStep_lt (s : Nat) (hs : s < 65536) : crcStep s < 65536 := by
  have hsr : s >>> 1 < 65536 := by
    rw [Nat.shiftRight_eq_div_pow]
    omega
  unfold crcStep
  split_ifs
  · have h1 : s >>> 1 < 2 ^ 16 := by norm_num at hsr ⊢; omega
    have h2 : (0x8408 : Nat) < 2 ^ 16 := by norm_num
    have := Nat.xor_lt_two_pow h1 h2
    norm_num at this ⊢
    omega
  · exact hsr

theorem crcStepN_lt : ∀ (n s : Nat), s < 65536 → crcStepN n s < 65536 := by
  intro n
  induction n with
  | zero => intro s hs; exact hs
  | succ n ih => intro s hs; exact ih _ (crcStep_lt s hs)

theorem crcUpdateByte_lt (s b : Nat) (hs : s < 65536) (hb : b < 256) :
    crcUpdateByte s b < 65536 := by
  have h1 : s < 2 ^ 16 := by omega
  have h2 : b < 2 ^ 16 := by omega
  have := Nat.xor_lt_two_pow h1 h2
  exact crcStepN_lt 8 _ (by omega)

theorem foldl_crc_lt (B : List Nat) (hB : ∀ b ∈ B, b < 256) :
    ∀ s, s < 65536 → B.foldl crcUpdateByte s < 65536 := by
  induction B with
  | nil => intro s hs; exact hs
  | cons b rest ih =>
    intro s hs
    exact ih (fun x hx => hB x (by simp [hx])) _
      (crcUpdateByte_lt s b hs (hB b (by simp)))

/-- `crcAppendGo` passes the input through and appends the two
little-endian bytes of the finalised digest. -/
theorem crcAppendGo_spec : ∀ (B : List Nat) (d : Nat),
    crcAppendGo d B = B ++
      [((B.foldl crcUpdateByte d) ^^^ 0xFFFF) % 256,
       ((B.foldl crcUpdateByte d) ^^^ 0xFFFF) / 256] := by
  intro B
  induction B with
  | nil => intro d; rfl
  | cons b rest ih =>
    intro d
    show b :: crcAppendGo (crcUpdateByte d b) rest = _
    rw [ih (crcUpdateByte d b)]
    rfl

/-- Feeding the two appended CRC bytes lands on the pre-xor residue. -/
theorem crc_key (s : Nat) (hs : s < 65536) :
    crcUpdateByte (crcUpdateByte s ((s ^^^ 65535) % 256))
      ((s ^^^ 65535) / 256) = 0xF0B8 := by
  have hhi : s / 256 < 256 := by omega
  have h1 : crcUpdateByte s ((s ^^^ 65535) % 256) =
      crcStepN 8 (s / 256 * 256 + 255) := by
    unfold crcUpdateByte
    rw [crc_low_byte_cancel s]
  rw [h1, crc_high_byte_compl s]
  exact crc_key256 (s / 256) hhi

/-- **C8.** For every byte vector `B`, the CRC appender outputs
exactly `B` followed by the two CRC bytes low byte first, and the
X.25 digest over the whole output equals the residue `0x0F47`. -/
theorem crc_append_spec (B : List Nat) (hB : ∀ b ∈ B, b < 256) :
    append_crc B = B ++ [X25_checksum B % 256, X25_checksum B / 256] ∧
    X25_checksum (append_crc B) = 0x0F47 := by
  have hfold : B.foldl crcUpdateByte 0xFFFF < 65536 :=
    foldl_crc_lt B hB 0xFFFF (by norm_num)
  have hgo := crcAppendGo_spec B 0xFFFF
  constructor
  · rw [append_crc, hgo]
    rfl
  · rw [append_crc, hgo]
    unfold X25_checksum
    rw [List.foldl_append]
    show (crcUpdateByte (crcUpdateByte _ _) _) ^^^ 0xFFFF = 0x0F47
    rw [crc_key _ hfold]
    decide

/-- Witness for C8: the appender on a concrete two-byte input. -/
theorem crc_append_spec_witness :
    append_crc [0x31, 0x32] = [0x31, 0x32] ++
      [X25_checksum [0x31, 0x32] % 256, X25_checksum [0x31, 0x32] / 256] ∧
    X25_checksum (append_crc [0x31, 0x32]) = 0x0F47 :=
  crc_append_spec [0x31, 0x32] (by decide)

/-! ## ARNCE characters, callsign parsing and display (claim C7;
hamaddr/src/ham_char.rs and ham_addr.rs)

Strings are modelled as `List Char`.  `HamChar` values are their
indices (0–39) in the 40-symbol alphabet. -/

/-- `HamChar::from_ascii_byte` (returning the character index). -/
def HamChar.from_ascii_byte (c : Nat) : Option Nat :=
  if c = 0 then some 0
  else if 65 ≤ c ∧ c ≤ 90 then some (c - 65 + 1)
  else if 97 ≤ c ∧ c ≤ 122 then some (c - 97 + 1)
  else if 48 ≤ c ∧ c ≤ 57 then some (c - 48 + 27)
  else if c = 47 then some 37
  else if c = 45 then some 38
  else if c = 94 then some 39
  else none

/-- `HamChar::from_char`. -/
def HamChar.from_char (c : Char) : Option Nat :=
  if c.toNat < 128 then HamChar.from_ascii_byte c.toNat else none

/-- The `CHARS` table of `to_ascii_byte`: NUL, A–Z, 0–9, slash, dash,
caret. -/
def hamCharTable : List Char :=
  "\x00ABCDEFGHIJKLMNOPQRSTUVWXYZ0123456789/-^".toList

/-- `HamChar::to_ascii_byte`. -/
def HamChar.to_ascii_byte (i : Nat) : Nat :=
  (hamCharTable.getD i '\x00').toNat

/-- `HamChar::to_char`: `NUL` renders as the visible `'␀'`. -/
def HamChar.to_char (i : Nat) : Char :=
  if i = 0 then '␀' else Char.ofNat (HamChar.to_ascii_byte i)

/-- `u16::from(HamCharChunk)` applied to a parsed character triple. -/
def chunkOfChars (c0 c1 c2 : Char) : Option Nat :=
  match HamChar.from_char c0, HamChar.from_char c1, HamChar.from_char c2 with
  | some a, some b, some c => some (a * 1600 + b * 40 + c)
  | _, _, _ => none

/-- `HamCharChunk::try_from(u16)`, as the decoded index triple. -/
def HamCharChunk.try_from_u16 (v : Nat) : Option (Nat × Nat × Nat) :=
  if v = 0 ∨ (0x0640 ≤ v ∧ v ≤ 0xF9FF) then
    some (v / 1600 % 40, v / 40 % 40, v % 40)
  else none

/-- `Display for HamCharChunk` applied to
`HamCharChunk::try_from(chunk).unwrap()` as the callsign `Display`
does; the `unwrap` of an invalid chunk (a panic, unreachable for
`Callsign`-typed addresses) is collapsed to the empty rendering. -/
def chunkDisplay (v : Nat) : List Char :=
  match HamCharChunk.try_from_u16 v with
  | some (a, b, c) =>
    if c ≠ 0 then [HamChar.to_char a, HamChar.to_char b, HamChar.to_char c]
    else if b ≠ 0 then [HamChar.to_char a, HamChar.to_char b]
    else if a ≠ 0 then [HamChar.to_char a]
    else []
  | none => []

/-- The `StrChunkIterator` of `try_from_callsign`, collected: groups
of three characters (the last group padded with NUL) packed into
chunk values; any invalid character fails the whole parse. -/
def strChunkList : List Char → Option (List Nat)
  | [] => some []
  | [c0] =>
    (chunkOfChars c0 '\x00' '\x00').map (fun v => [v])
  | [c0, c1] =>
    (chunkOfChars c0 c1 '\x00').map (fun v => [v])
  | c0 :: c1 :: c2 :: rest =>
    match chunkOfChars c0 c1 c2, strChunkList rest with
    | some v, some l => some (v :: l)
    | _, _ => none

/-- `HamAddr::from_chunks` (big-endian chunk serialisation). -/
def HamAddr.from_chunks (chunks : List Nat) : HamAddr :=
  ⟨(chunks.map toBeBytes2).flatten⟩

/-- `HamAddr::try_from_callsign`. -/
def HamAddr.try_from_callsign (s : List Char) : Option HamAddr :=
  if s.head? = some '~' ∨ s.head? = none then
    (if s.length ≤ 1 then some HamAddr.EMPTY
     else if s = "~FFFF".toList ∨ s = "~ffff".toList then
       some HamAddr.BROADCAST
     else none)
  else
    match strChunkList s with
    | none => none
    | some l =>
      if 4 < l.length then none
      else some (HamAddr.from_chunks (l ++ List.replicate (4 - l.length) 0))

/-- Upper-case hexadecimal digit. -/
def hexDigitChar (n : Nat) : Char :=
  ("0123456789ABCDEF".toList).getD n '0'

/-- Four hex digits of a chunk. -/
def chunkHex (v : Nat) : List Char :=
  [hexDigitChar (v / 4096 % 16), hexDigitChar (v / 256 % 16),
   hexDigitChar (v / 16 % 16), hexDigitChar (v % 16)]

/-- `Debug for HamAddr` (abbreviated raw hex form). -/
def HamAddr.debugChars (a : HamAddr) : List Char :=
  if a.len ≥ 8 then
    chunkHex (a.chunk 0) ++ '-' :: chunkHex (a.chunk 1) ++
      '-' :: chunkHex (a.chunk 2) ++ '-' :: chunkHex (a.chunk 3)
  else if a.len ≥ 6 then
    chunkHex (a.chunk 0) ++ '-' :: chunkHex (a.chunk 1) ++
      '-' :: chunkHex (a.chunk 2)
  else if a.len ≥ 4 then
    chunkHex (a.chunk 0) ++ '-' :: chunkHex (a.chunk 1)
  else
    chunkHex (a.chunk 0)

/-- `Display for HamAddr`: `~` for the empty address, decoded chunks
for callsigns, `~` plus the hex debug form otherwise. -/
def HamAddr.display (a : HamAddr) : List Char :=
  match a.get_type with
  | .Empty => ['~']
  | .Callsign =>
    ((List.range 4).map (fun i => chunkDisplay (a.chunk i))).flatten
  | _ => '~' :: a.debugChars

/-- **C7, counterexample.** The callsign parser accepts
`"A\x00B"` (an embedded NUL), producing the callsign-typed address
with chunk value `0x0642`; its `Display` renders the NUL as the
visible `'␀'`, which the parser then rejects — so
`parse(display(parse(s)))` fails rather than equalling `parse(s)`. -/
theorem callsign_roundtrip_counterexample :
    HamAddr.try_from_callsign ['A', '\x00', 'B'] =
      some ⟨[6, 66, 0, 0, 0, 0, 0, 0]⟩ ∧
    HamAddr.display ⟨[6, 66, 0, 0, 0, 0, 0, 0]⟩ = ['A', '␀', 'B'] ∧
    HamAddr.try_from_callsign
      (HamAddr.display ⟨[6, 66, 0, 0, 0, 0, 0, 0]⟩) = none := by
  decide

/-- Accepted character indices are at most 39. -/
theorem HamChar.from_char_le (c : Char) (i : Nat)
    (h : HamChar.from_char c = some i) : i ≤ 39 := by
  unfold HamChar.from_char HamChar.from_ascii_byte at h
  split_ifs at h <;> (injection h with h; omega)

/-- A non-NUL accepted character has a positive index. -/
theorem HamChar.from_char_pos (c : Char) (i : Nat)
    (h : HamChar.from_char c = some i) (hc : c ≠ '\x00') : 1 ≤ i := by
  unfold HamChar.from_char HamChar.from_ascii_byte at h
  split_ifs at h with h0 h1 <;> try (injection h with h; omega)
  · exfalso
    apply hc
    have hz : c.toNat = 0 := h1
    have : c.val = ('\x00').val := UInt32.toNat.inj hz
    exact Char.ext this

/-- Display/parse round-trip on single characters: rendering a
positive index gives a character that parses back to the same index
and is neither NUL nor a tilde. -/
theorem HamChar.char_roundtrip : ∀ i ≤ 39, 1 ≤ i →
    (HamChar.from_char (HamChar.to_char i) = some i ∧
     HamChar.to_char i ≠ '\x00' ∧ HamChar.to_char i ≠ '~') := by
  decide

/-- The rendering of a character accepted by the parser (its
upper-case normal form). -/
def upperChar (c : Char) : Char :=
  HamChar.to_char ((HamChar.from_char c).getD 0)

/-- Decoding a packed chunk recovers the index triple. -/
theorem chunk_pack (a b c : Nat) (ha1 : 1 ≤ a) (ha : a ≤ 39)
    (hb : b ≤ 39) (hc : c ≤ 39) :
    HamCharChunk.try_from_u16 (a * 1600 + b * 40 + c) = some (a, b, c) := by
  unfold HamCharChunk.try_from_u16
  rw [if_pos (by omega)]
  have e1 : (a * 1600 + b * 40 + c) / 1600 % 40 = a := by omega
  have e2 : (a * 1600 + b * 40 + c) / 40 % 40 = b := by omega
  have e3 : (a * 1600 + b * 40 + c) % 40 = c := by omega
  rw [e1, e2, e3]

theorem chunkDisplay_three (a b c : Nat) (ha1 : 1 ≤ a) (ha : a ≤ 39)
    (hb1 : 1 ≤ b) (hb : b ≤ 39) (hc1 : 1 ≤ c) (hc : c ≤ 39) :
    chunkDisplay (a * 1600 + b * 40 + c) =
      [HamChar.to_char a, HamChar.to_char b, HamChar.to_char c] := by
  unfold chunkDisplay
  rw [chunk_pack a b c ha1 ha hb hc]
  show (if c ≠ 0 then [HamChar.to_char a, HamChar.to_char b,
      HamChar.to_char c]
    else if b ≠ 0 then [HamChar.to_char a, HamChar.to_char b]
    else if a ≠ 0 then [HamChar.to_char a] else []) = _
  rw [if_pos (by omega)]

theorem chunkDisplay_two (a b : Nat) (ha1 : 1 ≤ a) (ha : a ≤ 39)
    (hb1 : 1 ≤ b) (hb : b ≤ 39) :
    chunkDisplay (a * 1600 + b * 40) =
      [HamChar.to_char a, HamChar.to_char b] := by
  unfold chunkDisplay
  have h : a * 1600 + b * 40 = a * 1600 + b * 40 + 0 := by omega
  rw [h, chunk_pack a b 0 ha1 ha hb (by omega)]
  show (if (0 : Nat) ≠ 0 then [HamChar.to_char a, HamChar.to_char b,
      HamChar.to_char 0]
    else if b ≠ 0 then [HamChar.to_char a, HamChar.to_char b]
    else if a ≠ 0 then [HamChar.to_char a] else []) = _
  rw [if_neg (by omega), if_pos (by omega)]

theorem chunkDisplay_one (a : Nat) (ha1 : 1 ≤ a) (ha : a ≤ 39) :
    chunkDisplay (a * 1600) = [HamChar.to_char a] := by
  unfold chunkDisplay
  have h : a * 1600 = a * 1600 + 0 * 40 + 0 := by omega
  rw [h, chunk_pack a 0 0 ha1 ha (by omega) (by omega)]
  show (if (0 : Nat) ≠ 0 then [HamChar.to_char a, HamChar.to_char 0,
      HamChar.to_char 0]
    else if (0 : Nat) ≠ 0 then [HamChar.to_char a, HamChar.to_char 0]
    else if a ≠ 0 then [HamChar.to_char a] else []) = _
  rw [if_neg (by omega), if_neg (by omega), if_pos (by omega)]

theorem chunkDisplay_zero : chunkDisplay 0 = [] := by decide

/-- Elimination of `chunkOfChars` into character indices. -/
theorem chunkOfChars_eq (c0 c1 c2 : Char) (v : Nat)
    (h : chunkOfChars c0 c1 c2 = some v) :
    ∃ a b c, HamChar.from_char c0 = some a ∧
      HamChar.from_char c1 = some b ∧ HamChar.from_char c2 = some c ∧
      v = a * 1600 + b * 40 + c := by
  unfold chunkOfChars at h
  cases h0 : HamChar.from_char c0 with
  | none => rw [h0] at h; cases h
  | some a =>
    cases h1 : HamChar.from_char c1 with
    | none => rw [h0, h1] at h; cases h
    | some b =>
      cases h2 : HamChar.from_char c2 with
      | none => rw [h0, h1, h2] at h; cases h
      | some c =>
        rw [h0, h1, h2] at h
        injection h with h
        exact ⟨a, b, c, rfl, rfl, rfl, h.symm⟩

/-- `from_char` of the NUL character. -/
theorem from_char_nul : HamChar.from_char '\x00' = some 0 := by decide

/-- Structure of accepted NUL-free strings: chunk values are in the
callsign range, the chunk display concatenation is the upper-cased
input, and the upper-cased input re-parses to the same chunk list
through characters that are neither NUL nor a tilde. -/
theorem strChunkList_good : ∀ (s : List Char) (l : List Nat),
    strChunkList s = some l → (∀ c ∈ s, c ≠ '\x00') →
    ((∀ v ∈ l, 1600 ≤ v ∧ v ≤ 63999) ∧
     (l.map chunkDisplay).flatten = s.map upperChar ∧
     strChunkList (s.map upperChar) = some l ∧
     l.length = (s.length + 2) / 3 ∧
     (∀ c ∈ s.map upperChar, c ≠ '\x00' ∧ c ≠ '~')) := by
  intro s
  induction s using strChunkList.induct with
  | case1 =>
    intro l h hn
    injection h with h
    subst h
    refine ⟨by simp, rfl, rfl, rfl, by simp⟩
  | case2 c0 =>
    intro l h hn
    unfold strChunkList at h
    cases hco : chunkOfChars c0 '\x00' '\x00' with
    | none => rw [hco] at h; cases h
    | some v =>
      rw [hco] at h
      injection h with h
      subst h
      obtain ⟨a, b, c, h0, h1, h2, hv⟩ := chunkOfChars_eq _ _ _ _ hco
      rw [from_char_nul] at h1 h2
      injection h1 with h1
      injection h2 with h2
      subst h1
      subst h2
      have ha1 := HamChar.from_char_pos _ _ h0 (hn c0 (by simp))
      have ha39 := HamChar.from_char_le _ _ h0
      obtain ⟨hrt, hnn, hnt⟩ := HamChar.char_roundtrip a ha39 ha1
      have hv' : v = a * 1600 := by omega
      subst hv'
      have hu : upperChar c0 = HamChar.to_char a := by
        unfold upperChar
        rw [h0]
        rfl
      refine ⟨by intro x hx; simp at hx; subst hx; omega, ?_, ?_, by simp, ?_⟩
      · simp [chunkDisplay_one a ha1 ha39, hu]
      · show strChunkList [upperChar c0] = _
        rw [hu]
        unfold strChunkList
        unfold chunkOfChars
        rw [hrt, from_char_nul]
        simp
      · intro x hx
        simp [hu] at hx
        subst hx
        exact ⟨hnn, hnt⟩
  | case3 c0 c1 =>
    intro l h hn
    unfold strChunkList at h
    cases hco : chunkOfChars c0 c1 '\x00' with
    | none => rw [hco] at h; cases h
    | some v =>
      rw [hco] at h
      injection h with h
      subst h
      obtain ⟨a, b, c, h0, h1, h2, hv⟩ := chunkOfChars_eq _ _ _ _ hco
      rw [from_char_nul] at h2
      injection h2 with h2
      subst h2
      have ha1 := HamChar.from_char_pos _ _ h0 (hn c0 (by simp))
      have hb1 := HamChar.from_char_pos _ _ h1 (hn c1 (by simp))
      have ha39 := HamChar.from_char_le _ _ h0
      have hb39 := HamChar.from_char_le _ _ h1
      obtain ⟨hrta, hnna, hnta⟩ := HamChar.char_roundtrip a ha39 ha1
      obtain ⟨hrtb, hnnb, hntb⟩ := HamChar.char_roundtrip b hb39 hb1
      have hv' : v = a * 1600 + b * 40 := by omega
      subst hv'
      have hua : upperChar c0 = HamChar.to_char a := by
        unfold upperChar
        rw [h0]
        rfl
      have hub : upperChar c1 = HamChar.to_char b := by
        unfold upperChar
        rw [h1]
        rfl
      refine ⟨by intro x hx; simp at hx; subst hx; omega, ?_, ?_, by simp,
        ?_⟩
      · simp [chunkDisplay_two a b ha1 ha39 hb1 hb39, hua, hub]
      · show strChunkList [upperChar c0, upperChar c1] = _
        rw [hua, hub]
        unfold strChunkList
        unfold chunkOfChars
        rw [hrta, hrtb, from_char_nul]
        simp
      · intro x hx
        simp [hua, hub] at hx
        rcases hx with hx | hx <;> subst hx
        · exact ⟨hnna, hnta⟩
        · exact ⟨hnnb, hntb⟩
  | case4 c0 c1 c2 rest v l2 hv hl ih =>
    intro l h hn
    unfold strChunkList at h
    rw [hv, hl] at h
    injection h with h
    subst h
    obtain ⟨a, b, c, h0, h1, h2, hvv⟩ := chunkOfChars_eq _ _ _ _ hl
    have ha1 := HamChar.from_char_pos _ _ h0 (hn c0 (by simp))
    have hb1 := HamChar.from_char_pos _ _ h1 (hn c1 (by simp))
    have hc1 := HamChar.from_char_pos _ _ h2 (hn c2 (by simp))
    have ha39 := HamChar.from_char_le _ _ h0
    have hb39 := HamChar.from_char_le _ _ h1
    have hc39 := HamChar.from_char_le _ _ h2
    obtain ⟨hrta, hnna, hnta⟩ := HamChar.char_roundtrip a ha39 ha1
    obtain ⟨hrtb, hnnb, hntb⟩ := HamChar.char_roundtrip b hb39 hb1
    obtain ⟨hrtc, hnnc, hntc⟩ := HamChar.char_roundtrip c hc39 hc1
    obtain ⟨ihb, ihd, ihp, ihl, ihc⟩ := ih l2 hv
      (fun x hx => hn x (by simp [hx]))
    have hua : upperChar c0 = HamChar.to_char a := by
      unfold upperChar
      rw [h0]
      rfl
    have hub : upperChar c1 = HamChar.to_char b := by
      unfold upperChar
      rw [h1]
      rfl
    have huc : upperChar c2 = HamChar.to_char c := by
      unfold upperChar
      rw [h2]
      rfl
    subst hvv
    refine ⟨?_, ?_, ?_, ?_, ?_⟩
    · intro x hx
      simp at hx
      rcases hx with hx | hx
      · subst hx; omega
      · exact ihb x hx
    · show (chunkDisplay (a * 1600 + b * 40 + c) ::
        l2.map chunkDisplay).flatten = _
      rw [chunkDisplay_three a b c ha1 ha39 hb1 hb39 hc1 hc39]
      simp [hua, hub, huc, ihd]
    · show strChunkList
        (upperChar c0 :: upperChar c1 :: upperChar c2 ::
          rest.map upperChar) = _
      rw [hua, hub, huc]
      unfold strChunkList
      have hcu : chunkOfChars (HamChar.to_char a) (HamChar.to_char b)
          (HamChar.to_char c) = some (a * 1600 + b * 40 + c) := by
        unfold chunkOfChars
        rw [hrta, hrtb, hrtc]
      rw [hcu, ihp]
    · simp only [List.length_cons, ihl, List.length_map]
      omega
    · intro x hx
      simp only [List.map_cons, List.mem_cons, hua, hub, huc] at hx
      rcases hx with hx | hx | hx | hx
      · subst hx; exact ⟨hnna, hnta⟩
      · subst hx; exact ⟨hnnb, hntb⟩
      · subst hx; exact ⟨hnnc, hntc⟩
      · exact ihc x hx
  | case5 c0 c1 c2 rest h ih =>
    intro l hp hn
    exfalso
    unfold strChunkList at hp
    cases hco : chunkOfChars c0 c1 c2 with
    | none => rw [hco] at hp; simp at hp
    | some v =>
      cases hsl : strChunkList rest with
      | none => rw [hco, hsl] at hp; simp at hp
      | some l2 => exact h v l2 hco hsl

/-- A list of length 4 is literally a 4-element list. -/
theorem list_length_four {α : Type} (l : List α) (h : l.length = 4) :
    ∃ v0 v1 v2 v3, l = [v0, v1, v2, v3] := by
  match l, h with
  | [v0, v1, v2, v3], _ => exact ⟨v0, v1, v2, v3, rfl⟩

/-- Zero-padding a 1–4 chunk list to four chunks: the head is a real
chunk, every element is a real chunk or a pad zero, and the padded
display concatenation equals the unpadded one. -/
theorem pad_to_four (l : List Nat) (h1 : 1 ≤ l.length)
    (h4 : l.length ≤ 4) :
    ∃ v0 v1 v2 v3,
      l ++ List.replicate (4 - l.length) 0 = [v0, v1, v2, v3] ∧
      v0 ∈ l ∧
      (v1 ∈ l ∨ v1 = 0) ∧ (v2 ∈ l ∨ v2 = 0) ∧ (v3 ∈ l ∨ v3 = 0) ∧
      chunkDisplay v0 ++ (chunkDisplay v1 ++ (chunkDisplay v2 ++
        (chunkDisplay v3 ++ []))) = (l.map chunkDisplay).flatten := by
  rcases l with - | ⟨w0, - | ⟨w1, - | ⟨w2, - | ⟨w3, - | ⟨w4, ltl⟩⟩⟩⟩⟩
  · simp at h1
  · exact ⟨w0, 0, 0, 0, rfl, by simp, by simp, by simp, by simp,
      by simp [chunkDisplay_zero]⟩
  · exact ⟨w0, w1, 0, 0, rfl, by simp, by simp, by simp, by simp,
      by simp [chunkDisplay_zero]⟩
  · exact ⟨w0, w1, w2, 0, rfl, by simp, by simp, by simp, by simp,
      by simp [chunkDisplay_zero]⟩
  · exact ⟨w0, w1, w2, w3, rfl, by simp, by simp, by simp, by simp,
      by simp [chunkDisplay_zero]⟩
  · simp at h4

/-- The chunks of `from_chunks` on four 16-bit values. -/
theorem from_chunks_chunks (v0 v1 v2 v3 : Nat) (h0 : v0 < 65536)
    (h1 : v1 < 65536) (h2 : v2 < 65536) (h3 : v3 < 65536) :
    (HamAddr.from_chunks [v0, v1, v2, v3]).chunk 0 = v0 ∧
    (HamAddr.from_chunks [v0, v1, v2, v3]).chunk 1 = v1 ∧
    (HamAddr.from_chunks [v0, v1, v2, v3]).chunk 2 = v2 ∧
    (HamAddr.from_chunks [v0, v1, v2, v3]).chunk 3 = v3 := by
  refine ⟨?_, ?_, ?_, ?_⟩
  · show 256 * (v0 / 256 % 256) + v0 % 256 = v0
    omega
  · show 256 * (v1 / 256 % 256) + v1 % 256 = v1
    omega
  · show 256 * (v2 / 256 % 256) + v2 % 256 = v2
    omega
  · show 256 * (v3 / 256 % 256) + v3 % 256 = v3
    omega

/-- **C7 (amended).** Callsign round-trip restricted to NUL-free
accepted strings: for every string `s` accepted by
`HamAddr::try_from_callsign` that contains no NUL character,
rendering the parsed address with `Display` and re-parsing yields the
same address, i.e. `parse(display(parse(s))) = parse(s)`. (The
unrestricted claim is refuted by `['A', NUL, 'B']`, whose display
renders the embedded NUL as the non-alphabet glyph `'␀'`.) -/
theorem callsign_roundtrip_no_nul (s : List Char) (a : HamAddr)
    (hp : HamAddr.try_from_callsign s = some a) (hn : '\x00' ∉ s) :
    HamAddr.try_from_callsign a.display = some a := by
  unfold HamAddr.try_from_callsign at hp
  by_cases hsp : s.head? = some '~' ∨ s.head? = none
  · rw [if_pos hsp] at hp
    split_ifs at hp with hlone hbc
    · injection hp with hp
      subst hp
      decide
    · injection hp with hp
      subst hp
      decide
  · rw [if_neg hsp] at hp
    have hnn : ∀ c ∈ s, c ≠ '\x00' := fun c hc he => hn (he ▸ hc)
    have hs_ne : s ≠ [] := by
      intro he
      exact hsp (Or.inr (by rw [he]; rfl))
    cases hsl : strChunkList s with
    | none =>
      rw [hsl] at hp
      exact Option.noConfusion (show (none : Option HamAddr) = some a from hp)
    | some l =>
      rw [hsl] at hp
      have hp' : (if 4 < l.length then none
          else some (HamAddr.from_chunks
            (l ++ List.replicate (4 - l.length) 0))) = some a := hp
      by_cases hlen4 : 4 < l.length
      · rw [if_pos hlen4] at hp'
        exact Option.noConfusion hp'
      · rw [if_neg hlen4] at hp'
        injection hp' with hpa
        obtain ⟨hb, hd, hrp, hlth, hch⟩ := strChunkList_good s l hsl hnn
        have hl1 : 1 ≤ l.length := by
          rw [hlth]
          cases s with
          | nil => exact absurd rfl hs_ne
          | cons c cs =>
            simp only [List.length_cons]
            omega
        have hl4 : l.length ≤ 4 := by omega
        obtain ⟨v0, v1, v2, v3, hpad, hm0, hm1, hm2, hm3, hdisp⟩ :=
          pad_to_four l hl1 hl4
        rw [hpad] at hpa
        have hb0 : 1600 ≤ v0 ∧ v0 ≤ 63999 := hb v0 hm0
        have hb1 : v1 = 0 ∨ (1600 ≤ v1 ∧ v1 ≤ 63999) := by
          rcases hm1 with h | h
          · exact Or.inr (hb v1 h)
          · exact Or.inl h
        have hb2 : v2 = 0 ∨ (1600 ≤ v2 ∧ v2 ≤ 63999) := by
          rcases hm2 with h | h
          · exact Or.inr (hb v2 h)
          · exact Or.inl h
        have hb3 : v3 = 0 ∨ (1600 ≤ v3 ∧ v3 ≤ 63999) := by
          rcases hm3 with h | h
          · exact Or.inr (hb v3 h)
          · exact Or.inl h
        have hlt0 : v0 < 65536 := by omega
        have hlt1 : v1 < 65536 := by rcases hb1 with h | h <;> omega
        have hlt2 : v2 < 65536 := by rcases hb2 with h | h <;> omega
        have hlt3 : v3 < 65536 := by rcases hb3 with h | h <;> omega
        obtain ⟨hc0, hc1, hc2, hc3⟩ :=
          from_chunks_chunks v0 v1 v2 v3 hlt0 hlt1 hlt2 hlt3
        rw [hpa] at hc0 hc1 hc2 hc3
        have hok : ∀ v : Nat, v = 0 ∨ (1600 ≤ v ∧ v ≤ 63999) →
            chunkCallsignOk v = true := by
          intro v hv
          simp only [chunkCallsignOk, Bool.or_eq_true, beq_iff_eq,
            Bool.and_eq_true, decide_eq_true_eq]
          omega
        have hemp : a.is_empty = false := by
          have hz : (a.chunk 0 == 0) = false := by
            rw [hc0]
            simp only [beq_eq_false_iff_ne, ne_eq]
            omega
          simp [HamAddr.is_empty, hz]
        have hgt : a.get_type = HamAddrType.Callsign := by
          have hne : ¬ (a.is_empty = true) := by
            rw [hemp]
            simp
          have h0a : ¬ (a.chunk 0 < 0x0640) := by
            rw [hc0]
            omega
          have h0b : a.chunk 0 < 0xFA00 := by
            rw [hc0]
            omega
          have h1 : chunkCallsignOk (a.chunk 1) = true := by
            rw [hc1]
            exact hok v1 hb1
          have h2 : chunkCallsignOk (a.chunk 2) = true := by
            rw [hc2]
            exact hok v2 hb2
          have h3 : chunkCallsignOk (a.chunk 3) = true := by
            rw [hc3]
            exact hok v3 hb3
          unfold HamAddr.get_type
          rw [if_neg hne, if_neg h0a, if_pos h0b, if_pos ⟨h1, h2, h3⟩]
        have hdisp_a : a.display =
            chunkDisplay (a.chunk 0) ++ (chunkDisplay (a.chunk 1) ++
              (chunkDisplay (a.chunk 2) ++ (chunkDisplay (a.chunk 3) ++ []))) := by
          unfold HamAddr.display
          rw [hgt]
          rfl
        rw [hc0, hc1, hc2, hc3, hdisp, hd] at hdisp_a
        rw [hdisp_a]
        unfold HamAddr.try_from_callsign
        have hhead : ¬ ((s.map upperChar).head? = some '~' ∨
            (s.map upperChar).head? = none) := by
          cases s with
          | nil => exact absurd rfl hs_ne
          | cons c cs =>
            simp only [List.map_cons, List.head?_cons, Option.some.injEq,
              reduceCtorEq, or_false]
            exact (hch (upperChar c) (by simp)).2
        rw [if_neg hhead, hrp]
        show (if 4 < l.length then none
          else some (HamAddr.from_chunks
            (l ++ List.replicate (4 - l.length) 0))) = some a
        rw [if_neg hlen4, hpad, hpa]

/-- **C7, witness.** The round-trip theorem applied at the concrete
accepted NUL-free callsign `"KJ6"` (chunks `0x4671`). -/
theorem callsign_roundtrip_no_nul_witness :
    HamAddr.try_from_callsign ['K', 'J', '6'] =
      some ⟨[70, 113, 0, 0, 0, 0, 0, 0]⟩ ∧
    ('\x00' ∉ (['K', 'J', '6'] : List Char)) ∧
    HamAddr.try_from_callsign
        (HamAddr.display ⟨[70, 113, 0, 0, 0, 0, 0, 0]⟩) =
      some ⟨[70, 113, 0, 0, 0, 0, 0, 0]⟩ :=
  ⟨by decide, by decide,
   callsign_roundtrip_no_nul ['K', 'J', '6'] ⟨[70, 113, 0, 0, 0, 0, 0, 0]⟩
     (by decide) (by decide)⟩
